import Mathlib

/-!
Verification development for the static taint-audit pipeline
(`scripts/run_taint_audit.py`).

The Python source is shallowly embedded: every definition below is a direct
translation of the corresponding Python function (source line numbers are
given in each doc comment).  Python `int` is modelled as `Int` (no overflow),
`str` as `String`, lists as `List`, dictionaries keyed by strings as
association lists or lookup functions, and `dict.get` defaults are made
explicit.  Python's stable `list.sort` is modelled by `List.insertionSort`,
which is also stable for the (total, transitive) key preorders used here, so
both produce the same (unique) stably sorted permutation.
-/

namespace TaintAudit

/-- A source/sink hit record as consumed by the pipeline
(`{file, line, snippet, category, title, severity?}`, cf. `parse_entries_or_sinks`,
run_taint_audit.py lines 283-293).  `severity` is optional: only sink
categories carry it. -/
structure Hit where
  file : String
  line : Int
  snippet : String
  category : String
  title : String
  severity : Option String
deriving DecidableEq, Repr

/-- A `{file, line, snippet}` record (call sites, authz hits, risky calls). -/
structure LineRef where
  file : String
  line : Int
  snippet : String
deriving DecidableEq, Repr

/-- An evidence record `{role, file, line, snippet}` (lines 437-463). -/
structure Evidence where
  role : String
  file : String
  line : Int
  snippet : String
deriving DecidableEq, Repr

/-- The `Flow` dataclass (lines 137-149). -/
structure Flow where
  flow_id : String
  kind : String
  severity : String
  sink : Hit
  source : Option Hit
  function_stack : List String
  variable_chain : List String
  guards : List String
  sanitizers : List String
  evidence : List Evidence
  notes : List String
deriving DecidableEq, Repr

/-- A forward-flow record as built by `build_forward_flows` (lines 532-542). -/
structure FwdFlow where
  flow_id : String
  source : Hit
  candidate_sinks : List Hit
  unknown_risky_calls : List LineRef
  notes : List String
deriving DecidableEq, Repr

/-! ### Character classes and Python string helpers

The regular expressions in the source are matched against source-code lines.
`\w`, `\b` and `\s` are modelled by their ASCII fragments
(`[A-Za-z0-9_]`, the boundary between such a character and any other, and
`[ \t\n\r\f\v]`), which is exact for every character the patterns
themselves can consume and for every ASCII input line.  (Python's Unicode
`\w` additionally counts e.g. CJK characters as word characters, which can
suppress a `\b` boundary on non-ASCII text; all pattern literals and all
inputs considered by the claims are ASCII.) -/

/-- `\w` (ASCII): letters, digits, underscore. -/
def isWordChar (c : Char) : Bool :=
  c.isAlpha || c.isDigit || c == '_'

/-- First character of an identifier: `[A-Za-z_]`. -/
def isIdStart (c : Char) : Bool :=
  c.isAlpha || c == '_'

/-- `\s` (ASCII): the whitespace characters recognised by Python. -/
def isSpaceChar (c : Char) : Bool :=
  c == ' ' || c == '\t' || c == '\n' || c == '\r' || c == '\x0b' || c == '\x0c'

/-- Python `str.strip()` on a character list. -/
def pyStripList (cs : List Char) : List Char :=
  ((cs.dropWhile isSpaceChar).reverse.dropWhile isSpaceChar).reverse

/-- Python `str.strip()`. -/
def pyStrip (s : String) : String :=
  ⟨pyStripList s.data⟩

/-- Python slicing `s[:n]`. -/
def takeStr (n : Nat) (s : String) : String :=
  ⟨s.data.take n⟩

/-- Python `f"{n:0wd}"` for non-negative `n`: decimal, zero-padded to width `w`. -/
def zeroPad (w : Nat) (n : Nat) : String :=
  let s := toString n
  ⟨List.replicate (w - s.length) '0'⟩ ++ s

/-- Python `str.lower()` restricted to ASCII (all pattern literals are ASCII). -/
def lowerList (cs : List Char) : List Char :=
  cs.map Char.toLower

/-- The `KEYWORDS` reserved-word set (lines 119-134). -/
def KEYWORDS : List String :=
  ["if", "for", "while", "switch", "catch", "return", "new", "def", "func", "fn",
   "class", "sizeof", "typeof", "else"]

/-- Maximal runs of word characters, fuel-indexed for structural recursion
(each step consumes at least one character, so fuel `cs.length` suffices;
the fuel-0 case is unreachable from the wrapper). -/
def wordRunsF : Nat → List Char → List (List Char)
  | 0, _ => []
  | _, [] => []
  | fuel + 1, c :: rest =>
    if isWordChar c then
      (c :: rest.takeWhile isWordChar) :: wordRunsF fuel (rest.dropWhile isWordChar)
    else
      wordRunsF fuel rest

/-- Maximal runs of word characters in a line, in order (used to model
`re.findall` with `\b...\b`-delimited identifier patterns). -/
def wordRuns (cs : List Char) : List (List Char) :=
  wordRunsF cs.length cs

/-- `extract_identifiers` (lines 314-316):
`re.findall(r"\b([A-Za-z_][A-Za-z0-9_]*)\b", text)` returns exactly the
maximal word-character runs whose first character is a letter or underscore;
the result keeps those not in `KEYWORDS` and longer than 2 characters. -/
def extract_identifiers (text : String) : List String :=
  (((wordRuns text.data).filter fun run =>
      match run with
      | c :: _ => isIdStart c
      | [] => false).map fun run => (⟨run⟩ : String)).filter fun x =>
    decide (x ∉ KEYWORDS) && decide (2 < x.length)

/-! ### Boolean `pattern.search(line)` matchers

Each vocabulary pattern of the source is only ever used as a boolean
`p.search(line)` test, so each is modelled by an existence scan: a match of
the alternation exists at some position.  All these patterns carry
`re.IGNORECASE`, so they are applied to the lowercased line.  `scanPred f`
tests `f` on every suffix that starts at a left word boundary (the position
is at the string start or preceded by a non-word character), which is the
`\b(...)` anchor every alternation below begins with. -/

/-- Scan all left-word-boundary positions, testing `f` on the suffix. -/
def scanPred (f : List Char → Bool) : Bool → List Char → Bool
  | _, [] => false
  | prev, c :: rest =>
    (!prev && f (c :: rest)) || scanPred f (isWordChar c) rest

/-- A whole-word alternative `w` with a right word boundary after it. -/
def wordBoundedAt (w : List Char) (cs : List Char) : Bool :=
  w.isPrefixOf cs &&
    (match cs.drop w.length with
     | [] => true
     | c :: _ => !isWordChar c)

/-- `\b(w₁|...|wₙ)\b` existence (words given lowercased). -/
def wordsSearch (ws : List (List Char)) (cs : List Char) : Bool :=
  scanPred (fun suf => ws.any fun w => wordBoundedAt w suf) false cs

/-- `safe_\w+` with surrounding word boundaries: `safe_` at a left boundary
followed by at least one word character (the trailing boundary then holds
after the maximal run). -/
def safeUnderscoreAt (cs : List Char) : Bool :=
  ("safe_".data.isPrefixOf cs) &&
    (match cs.drop 5 with
     | c :: _ => isWordChar c
     | [] => false)

/-- `w\w*\(` at a left boundary: the word, a maximal word-character run, then
directly an opening parenthesis. -/
def wordCallAt (w : List Char) (cs : List Char) : Bool :=
  w.isPrefixOf cs &&
    (((cs.drop w.length).dropWhile isWordChar).head? == some '(')

/-- `w\w*\s*\(` at a left boundary (the `risky_call` shape). -/
def wordCallSpacedAt (w : List Char) (cs : List Char) : Bool :=
  w.isPrefixOf cs &&
    ((((cs.drop w.length).dropWhile isWordChar).dropWhile isSpaceChar).head? == some '(')

/-- Plain substring occurrence (no boundaries). -/
def hasInfix (w : List Char) : List Char → Bool
  | [] => w.isEmpty
  | c :: rest => w.isPrefixOf (c :: rest) || hasInfix w rest

/-- Substring occurrence of any of the given words (no boundary). -/
def anyInfix (ws : List (List Char)) (cs : List Char) : Bool :=
  ws.any fun w => hasInfix w cs

/-- `if\s+.*(auth|authorize|permission|permit|role|tenant|owner|rbac|abac)` at
a left boundary: `if`, at least one whitespace character, then one of the
words as a plain substring anywhere later (no right boundary in the
pattern). -/
def ifAuthAt (cs : List Char) : Bool :=
  ("if".data.isPrefixOf cs) &&
    (match cs.drop 2 with
     | c :: rest =>
       isSpaceChar c &&
         anyInfix (["auth", "authorize", "permission", "permit", "role", "tenant",
                    "owner", "rbac", "abac"].map String.data) rest
     | [] => false)

/-- `SANITIZER_PATTERNS` (lines 91-95) as a boolean search over the
lowercased line; the per-line loop breaks at the first matching pattern, so
only existence across the three patterns is observable. -/
def sanitizer_search (line : String) : Bool :=
  let cs := lowerList line.data
  (scanPred (fun suf =>
      (["escape", "sanitize", "validate", "clean", "quote", "encodeuricomponent",
        "html.escapestring", "xss.escape"].map String.data).any
          (fun w => wordBoundedAt w suf)
      || safeUnderscoreAt suf) false cs)
  || wordsSearch (["realpath", "normpath", "filepath.clean", "path.normalize",
       "canonicalize"].map String.data) cs
  || wordsSearch (["preparedstatement", "parameterized", "bindparam", "querybuilder",
       "allowlist", "whitelist", "regex"].map String.data) cs

/-- `GUARD_PATTERNS` (lines 97-100) as a boolean search over the lowercased
line. -/
def guard_search (line : String) : Bool :=
  let cs := lowerList line.data
  (scanPred (fun suf =>
      ifAuthAt suf || wordCallAt "check".data suf || wordCallAt "require".data suf)
    false cs)
  || wordsSearch (["assert", "deny", "forbid", "is_admin", "is_owner", "has_role",
       "tenant_id"].map String.data) cs

/-- `AUTHZ_PATTERNS` (lines 102-105) as a boolean search over the lowercased
line. -/
def authz_search (line : String) : Bool :=
  let cs := lowerList line.data
  wordsSearch (["auth", "authorize", "authorization", "permission", "permit",
      "deny", "rbac", "abac", "policy"].map String.data) cs
  || wordsSearch (["owner", "tenant", "tenant_id", "org_id", "account_id", "scope",
      "principal", "subject"].map String.data) cs

/-- The `risky_call` pattern of `build_forward_flows` (line 513) as a boolean
search over the lowercased line. -/
def risky_search (line : String) : Bool :=
  scanPred (fun suf =>
      (["exec", "system", "query", "render", "deserialize", "template", "load",
        "open", "write", "http", "fetch", "dial"].map String.data).any
        fun w => wordCallSpacedAt w suf)
    false (lowerList line.data)

/-! ### `FUNC_DEF_PATTERNS` and `CALL_PATTERNS` (lines 107-117)

The five definition patterns are anchored (`^`), so `pat.search` can only
match at position 0.  Patterns 1/2/3/5 (`def`, `async def`, `func`, `fn`)
are deterministic: each keyword is followed by `\s+`, then the captured
identifier `[A-Za-z_][A-Za-z0-9_]*` (maximal munch — any shorter capture
would have to be followed by `\s*\(` starting at a word character, which is
impossible), then `\s*\(`.  Pattern 4 is the C-family shape
`^\s*(?:mod₁|...|mod₁₅|\s)+\s*([A-Za-z_]\w*)\s*\([^;]*\)\s*\{` and needs the
engine's backtracking: it is modelled as the same depth-first search —
greedily consume one more modifier-or-whitespace token (alternatives in
source order, `\s` last) before trying to exit into the tail; `[^;]*\)`
similarly tries every `)` inside the `;`-free segment.  The leading `\s*` is
absorbed into the `\s` token alternative (same reachable states in the same
order).  Matchers return the captured name together with its start
position. -/

/-- Consume `kw₁\s+kw₂\s+...` returning the position after the whitespace. -/
def matchKwChain : List (List Char) → Nat → List Char → Option (Nat × List Char)
  | [], pos, cs => some (pos, cs)
  | kw :: rest, pos, cs =>
    if kw.isPrefixOf cs then
      let cs1 := cs.drop kw.length
      let sp := cs1.takeWhile isSpaceChar
      if 0 < sp.length then
        matchKwChain rest (pos + kw.length + sp.length) (cs1.drop sp.length)
      else none
    else none

/-- The capture `([A-Za-z_][A-Za-z0-9_]*)\s*\(` at the current position. -/
def matchDefName (pos : Nat) (cs : List Char) : Option (Nat × String) :=
  match cs with
  | c :: rest =>
    if isIdStart c then
      if ((rest.dropWhile isWordChar).dropWhile isSpaceChar).head? == some '(' then
        some (pos, ⟨c :: rest.takeWhile isWordChar⟩)
      else none
    else none
  | [] => none

/-- `^\s*kw₁\s+...kwₙ\s+([A-Za-z_]\w*)\s*\(` (definition patterns 1, 2, 3, 5). -/
def matchKeywordDef (kws : List (List Char)) (line : List Char) : Option (Nat × String) :=
  let sp := line.takeWhile isSpaceChar
  match matchKwChain kws sp.length (line.drop sp.length) with
  | some (pos, rest) => matchDefName pos rest
  | none => none

/-- The modifier alternatives of definition pattern 4, in source order. -/
def MODS : List (List Char) :=
  ["public", "private", "protected", "static", "final", "synchronized", "inline",
   "virtual", "constexpr", "unsafe", "mut", "async", "export", "internal",
   "extern"].map String.data

/-- `[^;]*\)\s*\{`: some `)` within the `;`-free segment is followed by
`\s*\{`. -/
def p4Paren : List Char → Bool
  | [] => false
  | c :: rest =>
    if c == ';' then false
    else ((c == ')') && ((rest.dropWhile isSpaceChar).head? == some '{')) || p4Paren rest

/-- The tail of pattern 4 after exiting the modifier group:
`\s*([A-Za-z_]\w*)\s*\([^;]*\)\s*\{`. -/
def p4Tail (pos : Nat) (cs : List Char) : Option (Nat × String) :=
  let sp := cs.takeWhile isSpaceChar
  match cs.drop sp.length with
  | c :: rest2 =>
    if isIdStart c then
      match (rest2.dropWhile isWordChar).dropWhile isSpaceChar with
      | '(' :: rest5 =>
        if p4Paren rest5 then some (pos + sp.length, ⟨c :: rest2.takeWhile isWordChar⟩)
        else none
      | _ => none
    else none
  | [] => none

/-- Pattern 4 DFS, fuel-indexed (each consumed token is at least one
character, so the fuel of `p4Match` suffices and the fuel-0 case is
unreachable): having consumed at least one token, prefer consuming one more
token — the word alternatives in source order, then `\s` — over exiting
into the tail. -/
def p4F : Nat → Nat → List Char → Option (Nat × String)
  | 0, _, _ => none
  | fuel + 1, pos, cs =>
    (MODS.foldr
        (fun w acc =>
          ((if w.isPrefixOf cs then p4F fuel (pos + w.length) (cs.drop w.length)
            else none).orElse fun _ => acc)) none).orElse fun _ =>
      ((match cs with
        | c :: rest => if isSpaceChar c then p4F fuel (pos + 1) rest else none
        | [] => none).orElse fun _ => p4Tail pos cs)

/-- Definition pattern 4 (`search` with `^` anchor): one mandatory
modifier-or-whitespace token (no bare-tail match), then the greedy loop. -/
def p4Match (line : List Char) : Option (Nat × String) :=
  (MODS.foldr
      (fun w acc =>
        ((if w.isPrefixOf line then
            p4F line.length (0 + w.length) (line.drop w.length)
          else none).orElse fun _ => acc)) none).orElse fun _ =>
    match line with
    | c :: rest => if isSpaceChar c then p4F line.length 1 rest else none
    | [] => none

/-- `FUNC_DEF_PATTERNS` in order, first match wins (the per-line loops in
`index_functions` and `enclosing_function` both break at the first matching
pattern).  Returns the captured name and its start position. -/
def funcDefMatch (line : String) : Option (Nat × String) :=
  let cs := line.data
  ((((matchKeywordDef ["def".data] cs).orElse fun _ =>
      matchKeywordDef ["async".data, "def".data] cs).orElse fun _ =>
      matchKeywordDef ["func".data] cs).orElse fun _ =>
      p4Match cs).orElse fun _ =>
      matchKeywordDef ["fn".data] cs

/-- One attempted match of `CALL_PATTERNS[0]` = `\b([A-Za-z_]\w*)\s*\(` at a
left-boundary position: maximal identifier, `\s*`, `(`; returns the name and
the rest after the parenthesis (where `finditer` resumes). -/
def tryCall : List Char → Option (String × List Char)
  | [] => none
  | c :: rest =>
    if isIdStart c then
      match (rest.dropWhile isWordChar).dropWhile isSpaceChar with
      | '(' :: rest4 => some (⟨c :: rest.takeWhile isWordChar⟩, rest4)
      | _ => none
    else none

/-- `finditer` of the call pattern over a line, fuel-indexed (every step
consumes at least one character, so fuel `cs.length` suffices): scan every
position, a match is only attempted at a left word boundary
(`prev = false`), and scanning resumes after the consumed `(`. -/
def scanCalls : Nat → Bool → List Char → List String
  | 0, _, _ => []
  | _, _, [] => []
  | fuel + 1, prev, c :: rest =>
    if prev then scanCalls fuel (isWordChar c) rest
    else
      match tryCall (c :: rest) with
      | some (name, rest4) => name :: scanCalls fuel false rest4
      | none => scanCalls fuel (isWordChar c) rest

/-- All captured call-target names on a line, left to right. -/
def collectCalls (line : String) : List String :=
  scanCalls line.data.length false line.data

/-- `enclosing_function`'s downward scan (lines 305-310), 0-based index. -/
def enclosingFrom (lines : List String) : Nat → String
  | 0 =>
    match funcDefMatch (lines.getD 0 "") with
    | some r => r.2
    | none => "<global>"
  | i + 1 =>
    match funcDefMatch (lines.getD (i + 1) "") with
    | some r => r.2
    | none => enclosingFrom lines i

/-- `enclosing_function` (lines 303-311).  (The pipeline only calls it with
non-empty `lines`; on `[]` the model scans the single index 0 over the
default empty line and yields the sentinel.) -/
def enclosing_function (lines : List String) (line_no : Int) : String :=
  let idx : Int := min (max (line_no - 1) 0) (max ((lines.length : Int) - 1) 0)
  enclosingFrom lines idx.toNat

/-- A `{file, line}` definition-site record. -/
structure FileLine where
  file : String
  line : Int
deriving DecidableEq, Repr

/-- `index_functions` (lines 340-358).  The Python `defaultdict`s keyed by
name are modelled as flat `(name, record)` lists in scan order (file order,
then line order, then per-line match order); looking a name up in the
`defaultdict` returns exactly the records with that name, in this order. -/
def index_functions (fs : String → List String) (files : List String) :
    List (String × FileLine) × List (String × LineRef) :=
  (files.flatMap fun rel =>
     (fs rel).enum.filterMap fun p =>
       (funcDefMatch p.2).map fun r => (r.2, FileLine.mk rel ((p.1 : Int) + 1)),
   files.flatMap fun rel =>
     (fs rel).enum.flatMap fun p =>
       (collectCalls p.2).filterMap fun name =>
         if name ∈ KEYWORDS then none
         else some (name, LineRef.mk rel ((p.1 : Int) + 1) (takeStr 180 (pyStrip p.2))))

/-- `find_callers` (lines 361-362): `calls_index.get(func_name, [])[:max_items]`. -/
def find_callers (func_name : String) (calls_index : List (String × LineRef))
    (max_items : Nat) : List LineRef :=
  ((calls_index.filter fun p => p.1 == func_name).map Prod.snd).take max_items

/-- `severity_rank` (lines 577-578): rank map with default 4. -/
def severity_rank (sev : String) : Nat :=
  if sev = "critical" then 0
  else if sev = "high" then 1
  else if sev = "medium" then 2
  else if sev = "low" then 3
  else 4

/-- `normalize_severity` (lines 581-588). -/
def normalize_severity (sink_sev : String) (kind : String) (score : Int) : String :=
  if sink_sev = "high" ∧ ((kind = "cmd" ∨ kind = "memory" ∨ kind = "deser") ∧ score ≥ 85) then
    "critical"
  else if sink_sev = "high" then "high"
  else if sink_sev = "medium" then "medium"
  else "low"

/-- `status_from_score` (lines 591-596). -/
def status_from_score (score : Int) : String :=
  if score ≥ 80 then "Confirmed"
  else if score ≥ 60 then "Likely"
  else "Possible"

/-- The corroboration loop of `calc_evidence_score` (lines 626-633): some
forward flow has a candidate sink with exactly the sink's `(file, line)`. -/
def corroboratedBy (forward_flows : List FwdFlow) (sinkFile : String) (sinkLine : Int) : Bool :=
  forward_flows.any fun f =>
    f.candidate_sinks.any fun s => s.file == sinkFile && s.line == sinkLine

/-- Lookup in the `authz_hits_by_file` grouping built in `build_findings`
(lines 656-658, 646): grouping `authz_model.hits` by file and then looking a
file up (with default `[]`) yields exactly the sublist of hits with that
file, in original order. -/
def authzHitsFor (authzHits : List LineRef) (file : String) : List LineRef :=
  authzHits.filter fun h => h.file == file

/-- `calc_evidence_score` (lines 599-652), translated statement by statement.
Each Python `if cond: score += k` / `score -= k` statement is rendered as
adding `if cond then k else 0` (identical arithmetic, avoids duplicating the
accumulator); the conditional `reasoning.append` statements are rendered the
same way as appends of one-element or empty lists.  Returns
`(score, reasoning)`. -/
def calc_evidence_score (flow : Flow) (forward_flows : List FwdFlow)
    (authzHits : List LineRef) : Int × List String :=
  let score : Int :=
    (if flow.severity = "high" then 60 else 40)
    + (if flow.source.isSome then 15 else 0)
    + (if flow.function_stack ≠ [] ∧ flow.function_stack.length > 1 then 8 else 0)
    + (if flow.variable_chain ≠ [] then 7 else 0)
    + (if corroboratedBy forward_flows flow.sink.file flow.sink.line then 10 else 0)
    - (if flow.sanitizers ≠ [] then min 20 (6 * (flow.sanitizers.length : Int)) else 0)
    - (if flow.guards ≠ [] then min 20 (5 * (flow.guards.length : Int)) else 0)
    + (if authzHitsFor authzHits flow.sink.file = [] then 8 else 0)
  let reasoning : List String :=
    [if flow.severity = "high" then "高危 sink 基础分 +60" else "中危 sink 基础分 +40"]
    ++ [if flow.source.isSome then "存在 source 候选 +15" else "未定位明确 source +0"]
    ++ (if flow.function_stack ≠ [] ∧ flow.function_stack.length > 1 then
          ["存在调用栈证据 +8"] else [])
    ++ (if flow.variable_chain ≠ [] then ["变量链线索 +7"] else [])
    ++ (if corroboratedBy forward_flows flow.sink.file flow.sink.line then
          ["正向追踪命中同一 sink +10"] else [])
    ++ (if flow.sanitizers ≠ [] then ["检测到净化器，降低可利用性"] else [])
    ++ (if flow.guards ≠ [] then ["检测到 guard/authz，降低可利用性"] else [])
    ++ (if authzHitsFor authzHits flow.sink.file = [] then
          ["sink 文件未见 authz 语义，越权风险加分 +8"] else [])
  (max 0 (min 100 score), reasoning)

/-! ### FlowBuilder -/

/-- `SINK_TO_KIND` (lines 69-79). -/
def SINK_TO_KIND : List (String × String) :=
  [("exec", "cmd"), ("eval", "cmd"), ("template", "template"), ("sql", "query"),
   ("deser", "deser"), ("file_write", "path"), ("network", "ssrf"),
   ("memory", "memory"), ("dangerous_cfg", "authz")]

/-- `kind_from_sink` (lines 380-381). -/
def kind_from_sink (sink : Hit) : String :=
  (SINK_TO_KIND.lookup sink.category).getD "unknown"

/-- `gen_flow_id` (lines 384-385): `f"{prefix}-{idx:04d}"`. -/
def gen_flow_id (pre : String) (idx : Nat) : String :=
  pre ++ "-" ++ zeroPad 4 idx

/-- Integer range `[a, b]` inclusive (empty when `b < a`), as used by the
Python `range` loops below. -/
def intRange (a b : Int) : List Int :=
  (List.range (b + 1 - a).toNat).map fun k => a + (k : Int)

/-- Python `lines[i - 1]` for 1-based `i`, including Python's negative
indexing from the end for `i ≤ 0`.  (Reading past either end raises in
Python and aborts the run; the pipelines below only reach indices inside the
list, and the theorems about ill-formed hit lines hypothesize `1 ≤ line`.) -/
def pyLineAt (lines : List String) (i : Int) : String :=
  if 0 ≤ i - 1 then lines.getD (i - 1).toNat ""
  else lines.getD ((lines.length : Int) + (i - 1)).toNat ""

/-- `nearby_lines` (lines 319-325): `(index, line)` pairs for indices in
`[max 1 (center - radius), min len (center + radius)]`. -/
def nearby_lines (lines : List String) (center : Int) (radius : Int) : List (Int × String) :=
  let start := max 1 (center - radius)
  let stop := min ((lines.length : Int)) (center + radius)
  (intRange start stop).map fun i => (i, lines.getD (i - 1).toNat "")

/-- `collect_sanitizers_and_guards` (lines 365-377): radius-8 neighbourhood,
one entry per matching line per pattern set; returns
`(sanitizers, guards)`. -/
def collect_sanitizers_and_guards (lines : List String) (line_no : Int) :
    List String × List String :=
  let near := nearby_lines lines line_no 8
  (near.filterMap fun p =>
     if sanitizer_search p.2 then
       some ("L" ++ toString p.1 ++ ": " ++ takeStr 140 (pyStrip p.2))
     else none,
   near.filterMap fun p =>
     if guard_search p.2 then
       some ("L" ++ toString p.1 ++ ": " ++ takeStr 140 (pyStrip p.2))
     else none)

instance : DecidableRel (fun a b : Nat × Hit => a.1 ≤ b.1) :=
  fun a b => Nat.decLe a.1 b.1

/-- `find_nearby_sources` (lines 328-337): same-file entries within line
distance `max 80 (80·depth)`, stably sorted by distance, first five. -/
def find_nearby_sources (entries : List Hit) (rel_file : String) (sink_line : Int)
    (depth : Nat) : List Hit :=
  let window : Nat := max 80 (80 * depth)
  let scored := ((entries.filter fun e => e.file == rel_file).map
      fun e => ((e.line - sink_line).natAbs, e)).filter fun p => p.1 ≤ window
  ((List.insertionSort (fun a b : Nat × Hit => a.1 ≤ b.1) scored).map Prod.snd).take 5

/-- Soundness of a Python set-iteration oracle: listing a `set(l)` yields
each distinct element of `l` exactly once, in an order that depends on the
interpreter's (randomised) string hashing — hence the order is a parameter,
not a function of the listed inputs. -/
def SetOrderSound (σ : List String → List String) : Prop :=
  ∀ l, (σ l).Nodup ∧ ∀ x, x ∈ σ l ↔ x ∈ l

/-- The `variable_chain` computation (lines 427-433): `src_ids` and
`sink_ids` are sets of extracted identifiers, `overlap` lists their
intersection (a fresh set, listed via the oracle again); take up to 6
overlapping tokens, else up to 4 sink tokens. -/
def variableChainOf (σ : List String → List String) (src_text sink_text : String) :
    List String :=
  let src_ids := σ (extract_identifiers src_text)
  let sink_ids := σ (extract_identifiers sink_text)
  let overlap := σ (src_ids.filter fun x => sink_ids.contains x)
  if overlap ≠ [] then overlap.take 6 else sink_ids.take 4

/-- The body of the `build_backward_flows` loop (lines 399-489) for one sink
hit that survived the kind/readability guards; `i` is its 1-based position
in the prioritized order. -/
def mkBackwardFlow (σ : List String → List String) (fs : String → List String)
    (entries : List Hit) (calls_index : List (String × LineRef)) (depth : Nat)
    (i : Nat) (sink : Hit) : Flow :=
  let rel := sink.file
  let line_no := sink.line
  let lines := fs rel
  let near_sources := find_nearby_sources entries rel line_no depth
  let source := match near_sources with
    | s :: _ => some s
    | [] => entries.head?
  let sink_line :=
    if 0 < line_no ∧ line_no ≤ (lines.length : Int) then
      pyStrip (lines.getD (line_no - 1).toNat "")
    else ""
  let sink_func := enclosing_function lines line_no
  let callers := find_callers sink_func calls_index (max 1 depth)
  let function_stack := (rel ++ ":" ++ sink_func ++ ":" ++ toString line_no)
      :: callers.map fun c => c.file ++ ":<callsite>:" ++ toString c.line
  let src_text := match source with
    | some src =>
      let source_line := fs src.file
      if source_line ≠ [] ∧ 0 < src.line ∧ src.line ≤ (source_line.length : Int) then
        source_line.getD (src.line - 1).toNat ""
      else src.snippet
    | none => ""
  let variable_chain :=
    variableChainOf σ src_text (if sink_line = "" then sink.snippet else sink_line)
  let sg := collect_sanitizers_and_guards lines line_no
  let evidence := Evidence.mk "sink" rel line_no (if sink_line = "" then sink.snippet else sink_line)
      :: ((match source with
           | some src => [Evidence.mk "source" src.file src.line src.snippet]
           | none => []) ++ callers.map fun c => Evidence.mk "call" c.file c.line c.snippet)
  let notes :=
    (if near_sources = [] then ["未在同文件邻域发现明确 source，当前 source 为全局近似候选。"] else [])
    ++ (if callers = [] then ["未解析到明显调用者，函数栈证据以当前函数为主。"] else [])
    ++ (if sg.1 ≠ [] then ["检测到疑似净化器，需人工确认净化是否覆盖到 sink 参数。"] else [])
    ++ (if sg.2 ≠ [] then ["检测到 guard/authz 分支，需确认是否对当前路径生效。"] else [])
  Flow.mk (gen_flow_id "BWD" i) (kind_from_sink sink) (sink.severity.getD "medium") sink source
    function_stack variable_chain sg.2 sg.1 evidence notes

/-- The prioritized-sink key (line 397): `(0 if severity == "high" else 1,
file, line)`. -/
def sinkKey (s : Hit) : Nat :=
  if s.severity = some "high" then 0 else 1

/-- Lexicographic comparison by `(sinkKey, file, line)` (Python tuple
order). -/
def sinkLe (a b : Hit) : Prop :=
  sinkKey a < sinkKey b ∨
    (sinkKey a = sinkKey b ∧ (a.file < b.file ∨ (a.file = b.file ∧ a.line ≤ b.line)))

instance : DecidableRel sinkLe := fun a b => by
  unfold sinkLe
  infer_instance

/-- `build_backward_flows` (lines 388-490).  `σ` is the set-iteration oracle
(see `SetOrderSound`); `defs_index` is passed but unused, as in the source.
Note the 1-based `enumerate` index is taken over the full prioritized list,
so skipped sinks consume flow-id numbers. -/
def build_backward_flows (σ : List String → List String) (fs : String → List String)
    (sinks entries : List Hit) (_defs_index : List (String × FileLine))
    (calls_index : List (String × LineRef)) (depth : Nat) (kinds : List String) :
    List Flow :=
  (List.insertionSort sinkLe sinks).enum.filterMap fun p =>
    if kind_from_sink p.2 ∈ kinds then
      if fs p.2.file ≠ [] then
        some (mkBackwardFlow σ fs entries calls_index depth (p.1 + 1) p.2)
      else none
    else none

/-- The representative-per-category fold of `build_forward_flows`
(lines 504-508): first-seen entry per category, in first-seen order
(insertion-ordered dict). -/
def firstReps (entries : List Hit) : List Hit :=
  (entries.foldl
    (fun acc e => if acc.any (fun p => p.1 == e.category) then acc else acc ++ [(e.category, e)])
    ([] : List (String × Hit))).map Prod.snd

/-- `build_forward_flows` (lines 493-544).  `sink_by_file.get(rel, [])` is
the order-preserving per-file grouping, i.e. `sinks.filter (file = rel)`;
the flow index increments only for emitted flows (unreadable files are
skipped before the id is consumed). -/
def build_forward_flows (fs : String → List String) (entries sinks : List Hit)
    (depth : Nat) (kinds : List String) : List FwdFlow :=
  let window : Nat := max 80 (120 * depth)
  ((firstReps entries).filter fun src => fs src.file ≠ []).enum.map fun p =>
    let source := p.2
    let rel := source.file
    let line_no := source.line
    let lines := fs rel
    let stop : Int := min ((lines.length : Int)) (line_no + (window : Int))
    let local_sinks := (sinks.filter fun s => s.file == rel).filter fun s =>
        decide (line_no ≤ s.line) && decide (s.line ≤ stop) &&
          decide (kind_from_sink s ∈ kinds)
    let unknown_calls := (intRange line_no stop).filterMap fun ln =>
        let line := pyLineAt lines ln
        if risky_search line then some (LineRef.mk rel ln (takeStr 180 (pyStrip line)))
        else none
    FwdFlow.mk (gen_flow_id "FWD" (p.1 + 1)) source (local_sinks.take 8)
      (unknown_calls.take 8)
      ["正向追踪基于同文件窗口与风险调用关键词，主要用于补漏与发现未知 sink。"]

/-- `scan_authz_model` (lines 547-574), reduced to its `hits` list (the
keyword counter and timestamps feed only the rendered summary, which no
downstream decision reads).  `budget = some b` stops after the first `b`
files, as the in-loop break does. -/
def scan_authz_model (fs : String → List String) (files : List String)
    (budget : Option Nat) : List LineRef :=
  let scanned := match budget with
    | some b => files.take b
    | none => files
  scanned.flatMap fun rel =>
    (fs rel).enum.filterMap fun (p : Nat × String) =>
      if authz_search p.2 then
        some (LineRef.mk rel ((p.1 : Int) + 1) (takeStr 180 (pyStrip p.2)))
      else none

/-! ### FindingAggregator, AttackChainComposer, IncrementalCache -/

/-- A finding record as built by `build_findings` (lines 682-704); the
nested `path` dict is flattened into the two `path_` fields. -/
structure Finding where
  id : String
  title : String
  severity : String
  status : String
  evidence_score : Int
  source : String
  sink : String
  kind : String
  impact : String
  path_function_stack : List String
  path_variable_chain : List String
  guards : List String
  sanitizers : List String
  evidence : List Evidence
  score_reasoning : List String
  notes : List String
  exploitability : String
  authz_gap_hint : String
  fix_hint : String
deriving DecidableEq, Repr

/-- One finding from one flow (lines 671-704); `idx` is the 1-based
dedup-order identifier number. -/
def mkFinding (forward_flows : List FwdFlow) (authzHits : List LineRef) (idx : Nat)
    (flow : Flow) : Finding :=
  let sr := calc_evidence_score flow forward_flows authzHits
  Finding.mk
    ("F-" ++ zeroPad 3 idx)
    (flow.sink.title ++ " 潜在污点传播 (" ++ flow.kind ++ ")")
    (normalize_severity flow.severity flow.kind sr.1)
    (status_from_score sr.1)
    sr.1
    (match flow.source with
     | some s => s.file ++ ":" ++ toString s.line
     | none => "未知")
    (flow.sink.file ++ ":" ++ toString flow.sink.line)
    flow.kind
    "未经充分净化与权限绑定的数据可进入敏感操作，可能导致命令执行、越权、数据破坏或泄露。"
    flow.function_stack flow.variable_chain flow.guards flow.sanitizers flow.evidence
    sr.2 flow.notes
    "静态可利用性判定：需结合运行时参数控制度、认证上下文与净化器有效性进行最终确认。"
    (if authzHitsFor authzHits flow.sink.file = [] then "可能缺少权限/租户绑定"
     else "检测到部分 authz 语义，需核验是否覆盖当前路径")
    "优先采用白名单校验、参数化接口、上下文权限绑定与输出编码；为关键路径补充单测/安全回归测试。"

/-- The dedup key `(sink.file, sink.line, kind)` of a flow (line 666). -/
def flowKey (flow : Flow) : String × Int × String :=
  (flow.sink.file, flow.sink.line, flow.kind)

/-- The dedup loop of `build_findings` (lines 660-706): keep the first flow
per key, assigning sequential 1-based identifiers in dedup order. -/
def build_findings_dedup (forward_flows : List FwdFlow) (authzHits : List LineRef) :
    List Flow → List (String × Int × String) → Nat → List Finding
  | [], _, _ => []
  | flow :: rest, seen, idx =>
    if flowKey flow ∈ seen then
      build_findings_dedup forward_flows authzHits rest seen idx
    else
      mkFinding forward_flows authzHits idx flow ::
        build_findings_dedup forward_flows authzHits rest (flowKey flow :: seen) (idx + 1)

/-- The final sort key (line 708): `(severity_rank, -evidence_score, id)` in
Python tuple (lexicographic) order; ids are compared as strings, exactly as
`sorted` compares the `x["id"]` values. -/
def findingKeyLe (a b : Finding) : Prop :=
  severity_rank a.severity < severity_rank b.severity ∨
    (severity_rank a.severity = severity_rank b.severity ∧
      (b.evidence_score < a.evidence_score ∨
        (a.evidence_score = b.evidence_score ∧ a.id ≤ b.id)))

instance : DecidableRel findingKeyLe := fun a b => by
  unfold findingKeyLe
  infer_instance

instance : IsTotal Finding findingKeyLe := by
  constructor
  intro a b
  unfold findingKeyLe
  rcases lt_trichotomy (severity_rank a.severity) (severity_rank b.severity) with h | h | h
  · exact Or.inl (Or.inl h)
  · rcases lt_trichotomy a.evidence_score b.evidence_score with h2 | h2 | h2
    · exact Or.inr (Or.inr ⟨h.symm, Or.inl h2⟩)
    · rcases le_total a.id b.id with h3 | h3
      · exact Or.inl (Or.inr ⟨h, Or.inr ⟨h2, h3⟩⟩)
      · exact Or.inr (Or.inr ⟨h.symm, Or.inr ⟨h2.symm, h3⟩⟩)
    · exact Or.inl (Or.inr ⟨h, Or.inl h2⟩)
  · exact Or.inr (Or.inl h)

instance : IsTrans Finding findingKeyLe := by
  constructor
  intro a b c hab hbc
  unfold findingKeyLe at hab hbc ⊢
  rcases hab with h1 | ⟨h1, h1'⟩
  · rcases hbc with h2 | ⟨h2, _⟩
    · exact Or.inl (lt_trans h1 h2)
    · exact Or.inl (h2 ▸ h1)
  · rcases hbc with h2 | ⟨h2, h2'⟩
    · exact Or.inl (h1 ▸ h2)
    · refine Or.inr ⟨h1.trans h2, ?_⟩
      rcases h1' with h3 | ⟨h3, h3'⟩
      · rcases h2' with h4 | ⟨h4, _⟩
        · exact Or.inl (lt_trans h4 h3)
        · exact Or.inl (h4 ▸ h3)
      · rcases h2' with h4 | ⟨h4, h4'⟩
        · exact Or.inl (h3 ▸ h4)
        · exact Or.inr ⟨h3.trans h4, le_trans h3' h4'⟩

/-- `build_findings` (lines 655-709): dedup in flow order, then the final
stable sort. -/
def build_findings (flows : List Flow) (forward_flows : List FwdFlow)
    (authzHits : List LineRef) : List Finding :=
  List.insertionSort findingKeyLe (build_findings_dedup forward_flows authzHits flows [] 1)

/-- An attack-chain record (lines 721-757). -/
structure AttackChain where
  id : String
  name : String
  preconditions : List String
  steps : List String
  impact : String
deriving DecidableEq, Repr

/-- A `by_kind` bucket is non-empty iff some finding has that kind
(line 713-715: order-preserving grouping; only truthiness is read). -/
def hasKindIn (findings : List Finding) (k : String) : Bool :=
  findings.any fun f => f.kind == k

/-- The "write-then-execute" chain record (lines 720-733). -/
def wteChain (cid : Nat) : AttackChain :=
  AttackChain.mk ("CHAIN-" ++ zeroPad 2 cid) "写文件 -> 加载/执行"
    ["攻击者可控文件名或内容", "目标存在后续加载/执行路径"]
    ["利用 path 类问题写入可控内容或篡改关键文件", "触发 cmd/deser/template 路径实现执行或扩展控制"]
    "可能导致持久化控制、远程代码执行或供应链污染。"

/-- The privilege-bypass chain record (lines 735-746). -/
def authzChain (cid : Nat) : AttackChain :=
  AttackChain.mk ("CHAIN-" ++ zeroPad 2 cid) "越权 -> 高危 sink"
    ["权限绑定缺失或租户校验不完整", "攻击者可访问入口接口"]
    ["绕过/缺失鉴权进入业务入口", "调用高危 sink 完成越权操作"]
    "跨租户访问、敏感操作越权、核心数据破坏。"

/-- The ssrf chain record (lines 748-757). -/
def ssrfChain (cid : Nat) : AttackChain :=
  AttackChain.mk ("CHAIN-" ++ zeroPad 2 cid) "信息探测/外联 -> 校验绕过"
    ["可控外联地址或请求目标", "内部网络/元数据服务可达"]
    ["通过 ssrf 风险探测内部资产", "结合配置缺陷或命令路径扩大影响"]
    "内部信息泄露、访问控制绕过与横向利用。"

/-- `build_attack_chains` (lines 712-759): the three rules in order, with
the running chain-id counter. -/
def build_attack_chains (findings : List Finding) : List AttackChain :=
  let c1 : Bool := hasKindIn findings "path" &&
      (hasKindIn findings "cmd" || hasKindIn findings "deser" || hasKindIn findings "template")
  let cid2 : Nat := if c1 then 2 else 1
  let high_authz := findings.filter fun f =>
      "可能缺少".data.isPrefixOf f.authz_gap_hint.data &&
        (f.severity == "critical" || f.severity == "high")
  let c2 : Bool := !high_authz.isEmpty
  let cid3 : Nat := cid2 + (if c2 then 1 else 0)
  let c3 : Bool := hasKindIn findings "ssrf" &&
      (hasKindIn findings "authz" || hasKindIn findings "cmd")
  (if c1 then [wteChain 1] else []) ++ (if c2 then [authzChain cid2] else []) ++
    (if c3 then [ssrfChain cid3] else [])

/-- The parameter signature (`params_signature`, lines 259-266). -/
structure ParamsSig where
  repo_root : String
  focus_paths : List String
  kinds : List String
  depth : Int
  budget : Int
deriving DecidableEq, Repr

/-- One per-file state record (`build_file_state`, lines 225-238): size,
modification time and SHA-1 content hash.  Each field is only ever compared
for equality, so any type with decidable equality represents it faithfully
(`mtime` is the POSIX timestamp). -/
structure FileRec where
  mtime : Int
  size : Int
  sha1 : String
deriving DecidableEq, Repr

/-- `same_signature` (lines 269-270): equality of the canonical
(sorted-keys) JSON dumps of two signature dicts with this fixed key set is
exactly field-wise equality. -/
def same_signature (a b : ParamsSig) : Bool :=
  a == b

/-- Python `dict` equality for the file-state maps: same keys, equal values
(order-independent). -/
def dictEq (a b : List (String × FileRec)) : Bool :=
  (a.all fun p => b.lookup p.1 == some p.2) && (b.all fun p => a.lookup p.1 == some p.2)

/-- The artifact bundle stored in the cache (lines 1243-1260), reduced to
the structured products the claims observe (the rendered texts are carried
as an opaque name → text map). -/
structure Artifacts where
  backward_flows : List Flow
  forward_flows : List FwdFlow
  authz_hits : List LineRef
  findings : List Finding
  attack_chains : List AttackChain
  rendered : List (String × String)
deriving DecidableEq, Repr

/-- A cache record (lines 1238-1261). -/
structure CacheRecord where
  params_signature : ParamsSig
  file_state : List (String × FileRec)
  artifacts : Artifacts
deriving DecidableEq, Repr

/-- The cache decision (line 1128):
`bool(cache) and same_signature(cache["params_signature"], curr_sig) and
cache["file_state"] == curr_state`.  A missing or unparsable cache file
loads as the falsy `{}` (`load_cache`, lines 250-256), modelled as
`none`. -/
def cache_ok (cache : Option CacheRecord) (curr_sig : ParamsSig)
    (curr_state : List (String × FileRec)) : Bool :=
  match cache with
  | none => false
  | some c => same_signature c.params_signature curr_sig && dictEq c.file_state curr_state

/-- The exit status computed from a findings list (lines 1163-1164 on the
hit path, lines 1264-1265 on the full path — the same predicate). -/
def exit_status (findings : List Finding) : Nat :=
  if findings.any (fun f =>
      f.status == "Confirmed" && (f.severity == "critical" || f.severity == "high")) then 2
  else 0

/-- The cache-hit branch of `main` (lines 1133-1164): write the stored
artifact bundle verbatim and return the status recomputed from the stored
findings. -/
def main_on_hit (c : CacheRecord) : Artifacts × Nat :=
  (c.artifacts, exit_status c.artifacts.findings)

/-- Spec-side ("keeping only the first occurrence per key"): the sublist of
flows obtained by keeping each flow whose `(sink.file, sink.line, kind)` key
has not occurred before, in order. -/
def firstPerKey : List Flow → List Flow
  | [] => []
  | fl :: rest => fl :: firstPerKey (rest.filter fun x => decide (flowKey x ≠ flowKey fl))
termination_by l => l.length
decreasing_by
  exact Nat.lt_succ_of_le (List.length_filter_le _ _)

/-- Spec-side ("identifiers assigned sequentially in dedup order"):
finding `j` of the list is built with identifier number `idx + j`. -/
def numberFrom (forward_flows : List FwdFlow) (authzHits : List LineRef) :
    Nat → List Flow → List Finding
  | _, [] => []
  | idx, fl :: rest =>
    mkFinding forward_flows authzHits idx fl ::
      numberFrom forward_flows authzHits (idx + 1) rest

/-- `DEFAULT_KINDS` (line 21). -/
def DEFAULT_KINDS : List String :=
  ["cmd", "path", "query", "template", "ssrf", "deser", "memory", "authz"]

/-- Spec-side ("one representative source hit per distinct category,
first-seen wins"): keep each entry whose category has not occurred
before. -/
def firstPerCategory : List Hit → List Hit
  | [] => []
  | e :: rest => e :: firstPerCategory (rest.filter fun x => decide (x.category ≠ e.category))
termination_by l => l.length
decreasing_by
  exact Nat.lt_succ_of_le (List.length_filter_le _ _)

/-- Spec-side forward flow for one representative (claim C7 as amended):
candidate sinks are the sink hits in the same file with line in
`[source.line, min len (source.line + max 80 (120·depth))]` and enabled
kind, capped at 8; unknown risky calls are all lines of that range matching
the risky-call pattern — including lines already classified as sinks —
capped at 8. -/
def fwdFlowSpec (fs : String → List String) (sinks : List Hit) (depth : Nat)
    (kinds : List String) (idx : Nat) (source : Hit) : FwdFlow :=
  let window : Nat := max 80 (120 * depth)
  let rel := source.file
  let lines := fs rel
  let stop : Int := min ((lines.length : Int)) (source.line + (window : Int))
  FwdFlow.mk (gen_flow_id "FWD" idx) source
    ((sinks.filter fun s => (s.file == rel) && decide (source.line ≤ s.line) &&
        decide (s.line ≤ stop) && decide (kind_from_sink s ∈ kinds)).take 8)
    ((((intRange source.line stop).filter fun ln => risky_search (pyLineAt lines ln)).map
        fun ln => LineRef.mk rel ln (takeStr 180 (pyStrip (pyLineAt lines ln)))).take 8)
    ["正向追踪基于同文件窗口与风险调用关键词，主要用于补漏与发现未知 sink。"]

/-! ### Concrete inputs for witnesses and counterexamples -/

/-- A file whose `exec` sink line also matches the risky-call pattern. -/
def cex7Fs : String → List String := fun s =>
  if s = "a.py" then ["x = request.args", "exec(x)"] else []

def cex7Entries : List Hit :=
  [Hit.mk "a.py" 1 "x = request.args" "http_input" "HTTP 入口" none]

def cex7Sinks : List Hit :=
  [Hit.mk "a.py" 2 "exec(x)" "exec" "Exec" (some "high")]

/-- A two-file repository: a `path`-kind sink in `w.py` and a `cmd`-kind
sink in `c.py`, no authorization vocabulary anywhere. -/
def cexFs : String → List String := fun s =>
  if s = "w.py" then ["open(p).write(data)"]
  else if s = "c.py" then ["exec(cmd)"]
  else []

def cexSinks : List Hit :=
  [Hit.mk "w.py" 1 "open(p).write(data)" "file_write" "Write" (some "high"),
   Hit.mk "c.py" 1 "exec(cmd)" "exec" "Exec" (some "medium")]

/-- A concrete sound set-iteration oracle (first-occurrence order). -/
def cexSetOrder : List String → List String := fun l => l.dedup

def cexFlows : List Flow :=
  build_backward_flows cexSetOrder cexFs cexSinks [] [] [] 3 DEFAULT_KINDS

def cexFindings : List Finding :=
  build_findings cexFlows [] (scan_authz_model cexFs ["w.py", "c.py"] none)

/-- Attack-chain input with only the write-then-execute rule firing: both
findings are low severity and carry the "authz semantics seen" hint. -/
def c8WitFindings : List Finding :=
  [Finding.mk "F-001" "Write 潜在污点传播 (path)" "low" "Possible" 40 "未知" "w.py:1" "path"
     "" [] [] [] [] [] [] [] "" "检测到部分 authz 语义，需核验是否覆盖当前路径" "",
   Finding.mk "F-002" "Exec 潜在污点传播 (cmd)" "low" "Possible" 40 "未知" "c.py:1" "cmd"
     "" [] [] [] [] [] [] [] "" "检测到部分 authz 语义，需核验是否覆盖当前路径" ""]

/-- Query-only findings carrying the missing-authz hint at high severity:
only the privilege-bypass rule fires, as CHAIN-01. -/
def c8QueryFindings : List Finding :=
  [Finding.mk "F-001" "SQL 拼接 潜在污点传播 (query)" "high" "Likely" 70 "未知" "q.py:1"
     "query" "" [] [] [] [] [] [] [] "" "可能缺少权限/租户绑定" ""]

/-- Concrete cache-witness data: a one-file state reused verbatim. -/
def c3WitSig : ParamsSig :=
  ParamsSig.mk "/repo" [] ["cmd", "path"] 3 0

def c3WitState : List (String × FileRec) :=
  [("a.py", FileRec.mk 1700000000 120 "3e1f")]

def c3WitCache : CacheRecord :=
  CacheRecord.mk c3WitSig c3WitState (Artifacts.mk [] [] [] [] [] [])

/-- A file whose only function definition glues a modifier to the captured
name (`(?:public|...)+` backtracks inside `publicfoo`, capturing `foo` with a
word character on its left), plus a sink line. -/
def c10Fs : String → List String := fun s =>
  if s = "d.c" then ["publicfoo()\x7b", "exec(x)"] else []

def c10Sink : Hit :=
  Hit.mk "d.c" 2 "exec(x)" "exec" "Exec" (some "high")

/-- The boundary-respecting variant of the same shape: modifier and captured
name separated by a space. -/
def c10WitFs : String → List String := fun s =>
  if s = "w.c" then ["static foo()\x7b", "exec(x)"] else []

def c10WitSink : Hit :=
  Hit.mk "w.c" 2 "exec(x)" "exec" "Exec" (some "high")

/-- Concrete backward-flow witness data: two same-file sources at distances
4 and 1 from the sink line. -/
def c2WitFs : String → List String := fun s =>
  if s = "b.py" then ["q = request.args", "", "", "r = request.form", "exec(q)"] else []

def c2WitEntries : List Hit :=
  [Hit.mk "b.py" 1 "q = request.args" "http_input" "HTTP 入口" none,
   Hit.mk "b.py" 4 "r = request.form" "http_input" "HTTP 入口" none]

def c2WitSink : Hit :=
  Hit.mk "b.py" 5 "exec(q)" "exec" "Exec" (some "high")

def c2WitSinks : List Hit := [c2WitSink]

def c2WitFlow : Flow :=
  mkBackwardFlow cexSetOrder c2WitFs c2WitEntries [] 3 1 c2WitSink

/-- The first finding of the two-file counterexample run. -/
def c5WitFinding : Finding :=
  cexFindings.headD
    (Finding.mk "" "" "" "" 0 "" "" "" "" [] [] [] [] [] [] [] "" "" "")

/-- Erase the oracle-order-dependent variable chain of a flow. -/
def scrubFlow (f : Flow) : Flow :=
  { f with variable_chain := [] }

/-- Erase the oracle-order-dependent variable chain of a finding. -/
def scrubFinding (f : Finding) : Finding :=
  { f with path_variable_chain := [] }

/-- A second sound set-iteration oracle: distinct elements rotated by one
from first-occurrence order (as under a different string-hash seed). -/
def c9SetOrderAlt : List String → List String := fun l =>
  match l.dedup with
  | a :: t => t ++ [a]
  | [] => []

def c9Fs : String → List String := fun s =>
  if s = "e.py" then ["exec(alpha, beta)"] else []

def c9Entries : List Hit :=
  [Hit.mk "e.py" 1 "exec(alpha, beta)" "http_input" "HTTP 入口" none]

def c9Sinks : List Hit :=
  [Hit.mk "e.py" 1 "exec(alpha, beta)" "exec" "Exec" (some "high")]

/-- The source-line text fed to the variable-chain comparison
(lines 419-426), a function of the oracle-free inputs only. -/
def bwdSrcText (fs : String → List String) (entries : List Hit) (sink : Hit)
    (depth : Nat) : String :=
  match (match find_nearby_sources entries sink.file sink.line depth with
         | s :: _ => some s
         | [] => entries.head?) with
  | some src =>
    if fs src.file ≠ [] ∧ 0 < src.line ∧ src.line ≤ ((fs src.file).length : Int) then
      (fs src.file).getD (src.line - 1).toNat ""
    else src.snippet
  | none => ""

/-- The sink-line text fed to the variable-chain comparison (line 427). -/
def bwdSinkText (fs : String → List String) (sink : Hit) : String :=
  if (if 0 < sink.line ∧ sink.line ≤ ((fs sink.file).length : Int) then
        pyStrip ((fs sink.file).getD (sink.line - 1).toNat "")
      else "") = ""
  then sink.snippet
  else (if 0 < sink.line ∧ sink.line ≤ ((fs sink.file).length : Int) then
          pyStrip ((fs sink.file).getD (sink.line - 1).toNat "")
        else "")


lemma corroboratedBy_iff (forward_flows : List FwdFlow) (f : String) (l : Int) :
    corroboratedBy forward_flows f l = true ↔
      ∃ fw ∈ forward_flows, ∃ s ∈ fw.candidate_sinks, s.file = f ∧ s.line = l := by
  simp [corroboratedBy, List.any_eq_true]

lemma authzHitsFor_eq_nil_iff (authzHits : List LineRef) (f : String) :
    authzHitsFor authzHits f = [] ↔ ∀ h ∈ authzHits, h.file ≠ f := by
  simp [authzHitsFor, List.filter_eq_nil_iff]

/-- Claim C1: for every backward flow scored by `calc_evidence_score` (given the
forward-flow list and the authorization hits), the evidence score equals the
clamp to `[0,100]` of
`(60 if sink severity "high" else 40) + (15 if a source candidate exists)
 + (8 if the function_stack has more than one frame) + (7 if the
 variable_chain is non-empty) + (10 if some forward flow's candidate-sink
 list contains an entry with the same (file, line) as this flow's sink)
 - min(20, 6·sanitizer count) - min(20, 5·guard count) + (8 if the sink's
 file has zero authorization-signal hits)`; consequently the score always
lies in `[0, 100]`. -/
theorem evidence_score_formula_and_bounds (flow : Flow) (forward_flows : List FwdFlow)
    (authzHits : List LineRef) :
    (calc_evidence_score flow forward_flows authzHits).1 =
      max 0 (min 100 (
        (if flow.severity = "high" then (60 : Int) else 40)
        + (if flow.source ≠ none then 15 else 0)
        + (if 1 < flow.function_stack.length then 8 else 0)
        + (if flow.variable_chain ≠ [] then 7 else 0)
        + (if ∃ fw ∈ forward_flows, ∃ s ∈ fw.candidate_sinks,
              s.file = flow.sink.file ∧ s.line = flow.sink.line then 10 else 0)
        - min 20 (6 * (flow.sanitizers.length : Int))
        - min 20 (5 * (flow.guards.length : Int))
        + (if ∀ h ∈ authzHits, h.file ≠ flow.sink.file then 8 else 0)))
    ∧ 0 ≤ (calc_evidence_score flow forward_flows authzHits).1
    ∧ (calc_evidence_score flow forward_flows authzHits).1 ≤ 100 := by
  have hsrc : flow.source.isSome = true ↔ flow.source ≠ none := by
    cases flow.source <;> simp
  have hstack : (flow.function_stack ≠ [] ∧ flow.function_stack.length > 1) ↔
      1 < flow.function_stack.length := by
    constructor
    · exact fun h => h.2
    · intro h
      refine ⟨fun e => ?_, h⟩
      rw [e] at h
      simp at h
  have hcorr := corroboratedBy_iff forward_flows flow.sink.file flow.sink.line
  have haz := authzHitsFor_eq_nil_iff authzHits flow.sink.file
  have hsan : (if flow.sanitizers ≠ [] then min 20 (6 * (flow.sanitizers.length : Int)) else 0)
      = min 20 (6 * (flow.sanitizers.length : Int)) := by
    by_cases h : flow.sanitizers = [] <;> simp [h]
  have hguard : (if flow.guards ≠ [] then min 20 (5 * (flow.guards.length : Int)) else 0)
      = min 20 (5 * (flow.guards.length : Int)) := by
    by_cases h : flow.guards = [] <;> simp [h]
  have hmain : (calc_evidence_score flow forward_flows authzHits).1 =
      max 0 (min 100 (
        (if flow.severity = "high" then (60 : Int) else 40)
        + (if flow.source ≠ none then 15 else 0)
        + (if 1 < flow.function_stack.length then 8 else 0)
        + (if flow.variable_chain ≠ [] then 7 else 0)
        + (if ∃ fw ∈ forward_flows, ∃ s ∈ fw.candidate_sinks,
              s.file = flow.sink.file ∧ s.line = flow.sink.line then 10 else 0)
        - min 20 (6 * (flow.sanitizers.length : Int))
        - min 20 (5 * (flow.guards.length : Int))
        + (if ∀ h ∈ authzHits, h.file ≠ flow.sink.file then 8 else 0))) := by
    simp only [calc_evidence_score, hsan, hguard, hsrc, hstack, hcorr, haz]
  refine ⟨hmain, ?_, ?_⟩
  · rw [hmain]
    exact le_max_left 0 _
  · rw [hmain]
    exact max_le (by norm_num) (min_le_left _ _)

lemma head?_orderedInsert (a : Nat × Hit) (b : Nat × Hit) (t : List (Nat × Hit)) :
    (List.orderedInsert (fun x y : Nat × Hit => x.1 ≤ y.1) a (b :: t)).head? =
      some (if a.1 ≤ b.1 then a else b) := by
  by_cases h : a.1 ≤ b.1 <;> simp [List.orderedInsert, h]

/-- The head of the stable distance sort is the first element of minimal
key: it splits the input as `pre ++ m :: post` with every element of `pre`
strictly larger and every element overall at least as large. -/
lemma insertionSort_head_spec (l : List (Nat × Hit)) :
    ∀ m, (List.insertionSort (fun x y : Nat × Hit => x.1 ≤ y.1) l).head? = some m →
      ∃ pre post, l = pre ++ m :: post ∧ (∀ q ∈ pre, m.1 < q.1) ∧ ∀ q ∈ l, m.1 ≤ q.1 := by
  induction l with
  | nil => intro m hm; simp [List.insertionSort] at hm
  | cons a rest ih =>
    intro m hm
    rw [show List.insertionSort (fun x y : Nat × Hit => x.1 ≤ y.1) (a :: rest) =
        List.orderedInsert (fun x y : Nat × Hit => x.1 ≤ y.1) a
          (List.insertionSort (fun x y : Nat × Hit => x.1 ≤ y.1) rest) from rfl] at hm
    cases hsr : List.insertionSort (fun x y : Nat × Hit => x.1 ≤ y.1) rest with
    | nil =>
      have hrest : rest = [] := by
        have hlen := List.length_insertionSort (fun x y : Nat × Hit => x.1 ≤ y.1) rest
        rw [hsr] at hlen
        exact List.length_eq_zero.mp hlen.symm
      rw [hsr] at hm
      simp [List.orderedInsert] at hm
      subst hm
      exact ⟨[], rest, rfl, by simp, by simp [hrest]⟩
    | cons b t =>
      rw [hsr, head?_orderedInsert] at hm
      obtain ⟨pre, post, hdec, hpre, hall⟩ := ih b (by rw [hsr]; rfl)
      by_cases hab : a.1 ≤ b.1
      · rw [if_pos hab] at hm
        simp at hm
        subst hm
        refine ⟨[], rest, rfl, by simp, ?_⟩
        intro q hq
        rcases List.mem_cons.mp hq with rfl | hq2
        · exact le_refl _
        · exact le_trans hab (hall q hq2)
      · rw [if_neg hab] at hm
        simp at hm
        subst hm
        refine ⟨a :: pre, post, by simp [hdec], ?_, ?_⟩
        · intro q hq
          rcases List.mem_cons.mp hq with rfl | hq2
          · omega
          · exact hpre q hq2
        · intro q hq
          rcases List.mem_cons.mp hq with rfl | hq2
          · omega
          · exact hall q hq2

lemma map_pair_decomp (d : Hit → Nat) :
    ∀ (W : List Hit) (pre post : List (Nat × Hit)) (m : Nat × Hit),
      W.map (fun e => (d e, e)) = pre ++ m :: post →
      m.1 = d m.2 ∧ ∃ pre2 post2, W = pre2 ++ m.2 :: post2 ∧
        pre = pre2.map (fun e => (d e, e)) ∧ post = post2.map (fun e => (d e, e)) := by
  intro W
  induction W with
  | nil => intro pre post m h; simp at h
  | cons w W2 ih =>
    intro pre post m h
    cases pre with
    | nil =>
      simp only [List.map_cons, List.nil_append] at h
      injection h with h1 h2
      subst h1
      exact ⟨rfl, [], W2, rfl, rfl, h2.symm⟩
    | cons p pre2 =>
      simp only [List.map_cons, List.cons_append] at h
      injection h with hp hrest
      obtain ⟨hm1, pre3, post3, hW, hpre, hpost⟩ := ih pre2 post m hrest
      refine ⟨hm1, w :: pre3, post3, by simp [hW], ?_, hpost⟩
      rw [List.map_cons, hp, ← hpre]

lemma take5_head (l : List Hit) : (l.take 5).head? = l.head? := by
  cases l <;> rfl

/-- Characterization of the head of `find_nearby_sources`: `none` iff no
in-window same-file entry exists; otherwise the first entry (in scan order)
of minimal line distance. -/
lemma find_nearby_head (entries : List Hit) (rel : String) (sl : Int) (depth : Nat) :
    ((find_nearby_sources entries rel sl depth).head? = none →
      entries.filter (fun e =>
        decide ((e.line - sl).natAbs ≤ max 80 (80 * depth)) && (e.file == rel)) = [])
    ∧ ∀ m, (find_nearby_sources entries rel sl depth).head? = some m →
        ∃ pre post,
          entries.filter (fun e =>
            decide ((e.line - sl).natAbs ≤ max 80 (80 * depth)) && (e.file == rel)) =
              pre ++ m :: post ∧
          (∀ q ∈ pre, (m.line - sl).natAbs < (q.line - sl).natAbs) ∧
          ∀ q ∈ entries.filter (fun e =>
              decide ((e.line - sl).natAbs ≤ max 80 (80 * depth)) && (e.file == rel)),
            (m.line - sl).natAbs ≤ (q.line - sl).natAbs := by
  have hscored :
      ((entries.filter fun e => e.file == rel).map
          (fun e => ((e.line - sl).natAbs, e))).filter
            (fun p => p.1 ≤ max 80 (80 * depth)) =
        (entries.filter (fun e =>
          decide ((e.line - sl).natAbs ≤ max 80 (80 * depth)) && (e.file == rel))).map
            (fun e => ((e.line - sl).natAbs, e)) := by
    rw [List.map_filter, List.filter_filter]
    rfl
  constructor
  · intro h
    rw [find_nearby_sources] at h
    rw [take5_head, List.head?_map, Option.map_eq_none'] at h
    rw [List.head?_eq_none_iff] at h
    have hlen := List.length_insertionSort (fun a b : Nat × Hit => a.1 ≤ b.1)
      (((entries.filter fun e => e.file == rel).map
          (fun e => ((e.line - sl).natAbs, e))).filter
            (fun p => p.1 ≤ max 80 (80 * depth)))
    rw [h, hscored] at hlen
    simp only [List.length_nil, List.length_map] at hlen
    exact List.length_eq_zero.mp hlen.symm
  · intro m hm
    rw [find_nearby_sources] at hm
    rw [take5_head, List.head?_map] at hm
    obtain ⟨mp, hmp, hmp2⟩ := Option.map_eq_some'.mp hm
    rw [hscored] at hmp
    obtain ⟨pre, post, hdec, hpre, hall⟩ := insertionSort_head_spec _ mp hmp
    obtain ⟨hm1, pre2, post2, hW, hpreM, hpostM⟩ := map_pair_decomp _ _ pre post mp hdec
    subst hmp2
    refine ⟨pre2, post2, hW, ?_, ?_⟩
    · intro q hq
      have : ((q.line - sl).natAbs, q) ∈ pre := by
        rw [hpreM]
        exact List.mem_map_of_mem _ hq
      have h2 := hpre _ this
      rw [hm1] at h2
      exact h2
    · intro q hq
      have : ((q.line - sl).natAbs, q) ∈
          ((entries.filter (fun e =>
            decide ((e.line - sl).natAbs ≤ max 80 (80 * depth)) && (e.file == rel))).map
              (fun e => ((e.line - sl).natAbs, e))) :=
        List.mem_map_of_mem _ hq
      have h2 := hall _ this
      rw [hm1] at h2
      exact h2

lemma mkBackwardFlow_sink (σ : List String → List String) (fs : String → List String)
    (entries : List Hit) (calls_index : List (String × LineRef)) (depth : Nat)
    (i : Nat) (sink : Hit) :
    (mkBackwardFlow σ fs entries calls_index depth i sink).sink = sink := rfl

lemma mkBackwardFlow_source (σ : List String → List String) (fs : String → List String)
    (entries : List Hit) (calls_index : List (String × LineRef)) (depth : Nat)
    (i : Nat) (sink : Hit) :
    (mkBackwardFlow σ fs entries calls_index depth i sink).source =
      match find_nearby_sources entries sink.file sink.line depth with
      | s :: _ => some s
      | [] => entries.head? := rfl

lemma mem_build_backward_flows {σ : List String → List String} {fs : String → List String}
    {sinks entries : List Hit} {defs_index : List (String × FileLine)}
    {calls_index : List (String × LineRef)} {depth : Nat} {kinds : List String}
    {flow : Flow}
    (h : flow ∈ build_backward_flows σ fs sinks entries defs_index calls_index depth kinds) :
    ∃ i sink, flow = mkBackwardFlow σ fs entries calls_index depth i sink := by
  rw [build_backward_flows, List.mem_filterMap] at h
  obtain ⟨p, _, hsome⟩ := h
  split_ifs at hsome with h1 h2
  exact ⟨p.1 + 1, p.2, (Option.some_inj.mp hsome).symm⟩

/-- Claim C2: for every sink processed by the backward FlowBuilder with
depth `d`, the chosen source candidate is: among source hits in the same
file with absolute line distance at most `max 80 (80·d)`, the first (in
scan order) of smallest distance; if no in-window candidate exists, the
globally first source hit of the whole run (`none` when there are no source
hits at all). -/
theorem backward_source_selection
    (σ : List String → List String) (fs : String → List String)
    (sinks entries : List Hit) (defs_index : List (String × FileLine))
    (calls_index : List (String × LineRef)) (depth : Nat) (kinds : List String) :
    ∀ flow ∈ build_backward_flows σ fs sinks entries defs_index calls_index depth kinds,
      ((entries.filter fun e =>
          decide ((e.line - flow.sink.line).natAbs ≤ max 80 (80 * depth)) &&
            (e.file == flow.sink.file)) = [] → flow.source = entries.head?)
      ∧ ((entries.filter fun e =>
          decide ((e.line - flow.sink.line).natAbs ≤ max 80 (80 * depth)) &&
            (e.file == flow.sink.file)) ≠ [] →
          ∃ m pre post, flow.source = some m ∧
            (entries.filter fun e =>
              decide ((e.line - flow.sink.line).natAbs ≤ max 80 (80 * depth)) &&
                (e.file == flow.sink.file)) = pre ++ m :: post ∧
            (∀ q ∈ pre,
              (m.line - flow.sink.line).natAbs < (q.line - flow.sink.line).natAbs) ∧
            ∀ q ∈ (entries.filter fun e =>
                decide ((e.line - flow.sink.line).natAbs ≤ max 80 (80 * depth)) &&
                  (e.file == flow.sink.file)),
              (m.line - flow.sink.line).natAbs ≤ (q.line - flow.sink.line).natAbs) := by
  intro flow hf
  obtain ⟨i, sink, rfl⟩ := mem_build_backward_flows hf
  rw [mkBackwardFlow_sink, mkBackwardFlow_source]
  have hchar := find_nearby_head entries sink.file sink.line depth
  cases hn : find_nearby_sources entries sink.file sink.line depth with
  | nil =>
    have hW := hchar.1 (by rw [hn]; rfl)
    constructor
    · intro _
      rfl
    · intro hne
      exact absurd hW hne
  | cons m rest =>
    obtain ⟨pre, post, hdec, hpre, hall⟩ := hchar.2 m (by rw [hn]; rfl)
    constructor
    · intro h0
      rw [h0] at hdec
      exact absurd hdec.symm (List.append_ne_nil_of_right_ne_nil pre (by simp))
    · intro _
      exact ⟨m, pre, post, rfl, hdec, hpre, hall⟩

lemma mem_build_findings_dedup {forward_flows : List FwdFlow} {authzHits : List LineRef} :
    ∀ {flows : List Flow} {seen idx} {f : Finding},
      f ∈ build_findings_dedup forward_flows authzHits flows seen idx →
      ∃ flow ∈ flows, ∃ n, f = mkFinding forward_flows authzHits n flow := by
  intro flows
  induction flows with
  | nil => intro seen idx f h; simp [build_findings_dedup] at h
  | cons flow rest ih =>
    intro seen idx f h
    simp only [build_findings_dedup] at h
    by_cases hk : flowKey flow ∈ seen
    · rw [if_pos hk] at h
      obtain ⟨fl, hfl, n, he⟩ := ih h
      exact ⟨fl, List.mem_cons_of_mem _ hfl, n, he⟩
    · rw [if_neg hk] at h
      rcases List.mem_cons.mp h with he | h2
      · exact ⟨flow, List.mem_cons_self _ _, idx, he⟩
      · obtain ⟨fl, hfl, n, he⟩ := ih h2
        exact ⟨fl, List.mem_cons_of_mem _ hfl, n, he⟩

lemma mem_firstPerKey : ∀ (l : List Flow), ∀ x ∈ firstPerKey l, x ∈ l := by
  intro l
  induction l using firstPerKey.induct with
  | case1 => simp [firstPerKey]
  | case2 fl rest ih =>
    intro x hx
    rw [firstPerKey] at hx
    rcases List.mem_cons.mp hx with rfl | h2
    · exact List.mem_cons_self _ _
    · exact List.mem_cons_of_mem _ (List.mem_of_mem_filter (ih x h2))

lemma pairwise_firstPerKey : ∀ (l : List Flow),
    List.Pairwise (fun a b => flowKey a ≠ flowKey b) (firstPerKey l) := by
  intro l
  induction l using firstPerKey.induct with
  | case1 => simp [firstPerKey]
  | case2 fl rest ih =>
    rw [firstPerKey]
    refine List.pairwise_cons.mpr ⟨?_, ih⟩
    intro b hb
    have hb2 := mem_firstPerKey _ b hb
    have := List.of_mem_filter hb2
    simp at this
    exact fun he => this he.symm

lemma dedup_eq_numberFrom (forward_flows : List FwdFlow) (authzHits : List LineRef) :
    ∀ (flows : List Flow) (seen : List (String × Int × String)) (idx : Nat),
      build_findings_dedup forward_flows authzHits flows seen idx =
        numberFrom forward_flows authzHits idx
          (firstPerKey (flows.filter fun fl => decide (flowKey fl ∉ seen))) := by
  intro flows
  induction flows with
  | nil => intro seen idx; simp [build_findings_dedup, firstPerKey, numberFrom]
  | cons fl rest ih =>
    intro seen idx
    simp only [build_findings_dedup, List.filter_cons]
    by_cases hk : flowKey fl ∈ seen
    · rw [if_pos hk, if_neg (by simp [hk])]
      exact ih seen idx
    · rw [if_neg hk, if_pos (by simp [hk])]
      rw [firstPerKey, numberFrom]
      rw [ih (flowKey fl :: seen) (idx + 1)]
      have hfil : rest.filter (fun x => decide (flowKey x ∉ flowKey fl :: seen)) =
          (rest.filter fun x => decide (flowKey x ∉ seen)).filter
            (fun x => decide (flowKey x ≠ flowKey fl)) := by
        rw [List.filter_filter]
        apply List.filter_congr
        intro x _
        simp [List.mem_cons, not_or, and_comm]
      rw [hfil]

/-- Claim C4: the findings list is obtained by processing flows in
FlowBuilder order, keeping only the first flow per
`(sink.file, sink.line, kind)` key (so the kept keys are pairwise
distinct), assigning sequential identifier numbers in dedup order, and
finally stable-sorting by severity rank, then descending evidence score,
then ascending identifier; the final list is sorted under that key and is a
permutation of the numbered dedup list. -/
theorem findings_dedup_and_order (flows : List Flow) (forward_flows : List FwdFlow)
    (authzHits : List LineRef) :
    build_findings flows forward_flows authzHits =
      List.insertionSort findingKeyLe
        (numberFrom forward_flows authzHits 1 (firstPerKey flows))
    ∧ List.Pairwise (fun a b => flowKey a ≠ flowKey b) (firstPerKey flows)
    ∧ List.Sorted findingKeyLe (build_findings flows forward_flows authzHits)
    ∧ (build_findings flows forward_flows authzHits).Perm
        (numberFrom forward_flows authzHits 1 (firstPerKey flows)) := by
  have hded := dedup_eq_numberFrom forward_flows authzHits flows [] 1
  simp only [List.not_mem_nil, not_false_iff, decide_True, List.filter_true] at hded
  refine ⟨?_, pairwise_firstPerKey flows, ?_, ?_⟩
  · rw [build_findings, hded]
  · rw [build_findings]
    exact List.sorted_insertionSort findingKeyLe _
  · rw [build_findings, hded]
    exact List.perm_insertionSort findingKeyLe _

/-- Claim C5: every finding's severity is `normalize_severity` applied to the
flow's sink severity, the kind, and the finding's own final clamped evidence
score (never an intermediate partial sum); and `normalize_severity` is
"critical" exactly for sink severity "high", kind in {cmd, memory, deser}
and score ≥ 85, else "high" for sink severity "high", "medium" for
"medium", and "low" otherwise. -/
theorem severity_normalization_spec :
    (∀ (flows : List Flow) (forward_flows : List FwdFlow) (authzHits : List LineRef),
      ∀ f ∈ build_findings flows forward_flows authzHits,
        ∃ flow ∈ flows,
          f.evidence_score = (calc_evidence_score flow forward_flows authzHits).1 ∧
          f.severity = normalize_severity flow.severity flow.kind f.evidence_score)
    ∧ (∀ (sink_sev kind : String) (score : Int),
        (normalize_severity sink_sev kind score = "critical" ↔
          sink_sev = "high" ∧ (kind = "cmd" ∨ kind = "memory" ∨ kind = "deser") ∧ 85 ≤ score)
        ∧ (normalize_severity sink_sev kind score = "high" ↔
            sink_sev = "high" ∧
              ¬((kind = "cmd" ∨ kind = "memory" ∨ kind = "deser") ∧ 85 ≤ score))
        ∧ (normalize_severity sink_sev kind score = "medium" ↔ sink_sev = "medium")
        ∧ (normalize_severity sink_sev kind score = "low" ↔
            sink_sev ≠ "high" ∧ sink_sev ≠ "medium")) := by
  constructor
  · intro flows forward_flows authzHits f hf
    rw [build_findings, List.mem_insertionSort] at hf
    obtain ⟨flow, hmem, n, rfl⟩ := mem_build_findings_dedup hf
    refine ⟨flow, hmem, ?_, ?_⟩ <;> simp [mkFinding]
  · intro sink_sev kind score
    unfold normalize_severity
    refine ⟨?_, ?_, ?_, ?_⟩ <;>
      split_ifs with h1 h2 h3 <;> simp_all <;> omega

/-- Claim C6: the status is "Confirmed" exactly for scores `≥ 80`, "Likely"
exactly for scores in `[60, 80)`, "Possible" otherwise; in particular the
scores 59, 60, 79, 80 map to Possible, Likely, Likely, Confirmed. -/
theorem status_from_score_spec :
    (∀ s : Int,
      (status_from_score s = "Confirmed" ↔ 80 ≤ s)
      ∧ (status_from_score s = "Likely" ↔ 60 ≤ s ∧ s < 80)
      ∧ (status_from_score s = "Possible" ↔ s < 60))
    ∧ status_from_score 59 = "Possible"
    ∧ status_from_score 60 = "Likely"
    ∧ status_from_score 79 = "Likely"
    ∧ status_from_score 80 = "Confirmed" := by
  refine ⟨fun s => ?_, by decide, by decide, by decide, by decide⟩
  unfold status_from_score
  split_ifs with h1 h2 <;>
    refine ⟨?_, ?_, ?_⟩ <;> simp <;> omega


lemma hasKindIn_iff (findings : List Finding) (k : String) :
    hasKindIn findings k = true ↔ ∃ f ∈ findings, f.kind = k := by
  simp [hasKindIn]

/-- Claim C8 counterexample: `cexFindings` (computed by the pipeline from
`cexSinks` over `cexFs`) contains findings of kind "path" and of kind
"cmd", yet the composer does not emit exactly the write-then-execute chain:
the path finding is severity "high" with the missing-authz hint, so the
privilege-bypass chain fires as well. -/
theorem attack_chains_exactness_counterexample :
    (∃ f ∈ cexFindings, f.kind = "path") ∧ (∃ f ∈ cexFindings, f.kind = "cmd") ∧
      build_attack_chains cexFindings ≠ [wteChain 1] := by
  refine ⟨by decide, by decide, by decide⟩

lemma authzChain_ne_wte (k m : Nat) : authzChain k ≠ wteChain m := by
  intro h
  rw [authzChain, wteChain] at h
  injection h with h1 h2 h3 h4 h5
  exact absurd h2 (by decide)

lemma high_authz_ne_nil {findings : List Finding}
    (h : ∃ f ∈ findings, "可能缺少".data.isPrefixOf f.authz_gap_hint.data = true ∧
        (f.severity = "critical" ∨ f.severity = "high")) :
    (!(findings.filter fun f =>
        "可能缺少".data.isPrefixOf f.authz_gap_hint.data &&
          (f.severity == "critical" || f.severity == "high")).isEmpty) = true := by
  obtain ⟨f, hf, hpre, hsev⟩ := h
  have hfil : f ∈ findings.filter fun g =>
      "可能缺少".data.isPrefixOf g.authz_gap_hint.data &&
        (g.severity == "critical" || g.severity == "high") := by
    rw [List.mem_filter]
    refine ⟨hf, ?_⟩
    simp only [Bool.and_eq_true, Bool.or_eq_true, beq_iff_eq]
    exact ⟨hpre, hsev⟩
  cases hfe : (findings.filter fun g =>
      "可能缺少".data.isPrefixOf g.authz_gap_hint.data &&
        (g.severity == "critical" || g.severity == "high")).isEmpty
  · rfl
  · rw [List.isEmpty_iff] at hfe
    rw [hfe] at hfil
    exact absurd hfil (List.not_mem_nil f)

lemma authz_chain_mem {findings : List Finding}
    (h : ∃ f ∈ findings, "可能缺少".data.isPrefixOf f.authz_gap_hint.data = true ∧
        (f.severity = "critical" ∨ f.severity = "high")) :
    authzChain (if (hasKindIn findings "path" &&
        (hasKindIn findings "cmd" || hasKindIn findings "deser" ||
          hasKindIn findings "template")) then 2 else 1) ∈
      build_attack_chains findings := by
  have hc2 := high_authz_ne_nil h
  simp only [build_attack_chains]
  refine List.mem_append.mpr (Or.inl (List.mem_append.mpr (Or.inr ?_)))
  rw [hc2]
  simp

/-- Claim C8 (amended): when findings of kind "path" and of kind "cmd"
exist, the write-then-execute chain is emitted first (as CHAIN-01), and it
is the only chain exactly when additionally no critical/high finding
carries the missing-authz hint and no finding has kind "ssrf"; a findings
set containing only kind "query" yields zero chains exactly when no
critical/high finding carries the missing-authz hint, and otherwise yields
exactly the privilege-bypass chain (as CHAIN-01). -/
theorem attack_chains_amended (findings : List Finding) :
    ((∃ f ∈ findings, f.kind = "path") → (∃ f ∈ findings, f.kind = "cmd") →
      (build_attack_chains findings).head? = some (wteChain 1))
    ∧ ((∃ f ∈ findings, f.kind = "path") → (∃ f ∈ findings, f.kind = "cmd") →
        (build_attack_chains findings = [wteChain 1] ↔
          ((∀ f ∈ findings, ¬("可能缺少".data.isPrefixOf f.authz_gap_hint.data = true ∧
              (f.severity = "critical" ∨ f.severity = "high"))) ∧
            (∀ f ∈ findings, f.kind ≠ "ssrf"))))
    ∧ ((∀ f ∈ findings, f.kind = "query") →
        ((build_attack_chains findings = [] ↔
            (∀ f ∈ findings, ¬("可能缺少".data.isPrefixOf f.authz_gap_hint.data = true ∧
                (f.severity = "critical" ∨ f.severity = "high"))))
          ∧ ((∃ f ∈ findings, "可能缺少".data.isPrefixOf f.authz_gap_hint.data = true ∧
                (f.severity = "critical" ∨ f.severity = "high")) →
              build_attack_chains findings = [authzChain 1]))) := by
  refine ⟨?_, ?_, ?_⟩
  · intro hp hc
    have h1 : hasKindIn findings "path" = true := (hasKindIn_iff _ _).mpr hp
    have h2 : hasKindIn findings "cmd" = true := (hasKindIn_iff _ _).mpr hc
    simp only [build_attack_chains, h1, h2, Bool.true_and, Bool.true_or, eq_self_iff_true,
      if_true, List.singleton_append, List.cons_append, List.head?_cons]
  · intro hp hc
    have h1 : hasKindIn findings "path" = true := (hasKindIn_iff _ _).mpr hp
    have h2 : hasKindIn findings "cmd" = true := (hasKindIn_iff _ _).mpr hc
    constructor
    · intro heq
      have hnoauthz : ∀ f ∈ findings,
          ¬("可能缺少".data.isPrefixOf f.authz_gap_hint.data = true ∧
            (f.severity = "critical" ∨ f.severity = "high")) := by
        intro f hf hviol
        have hmem := authz_chain_mem ⟨f, hf, hviol.1, hviol.2⟩
        rw [heq] at hmem
        exact absurd (List.mem_singleton.mp hmem) (authzChain_ne_wte _ _)
      refine ⟨hnoauthz, ?_⟩
      intro f hf hk
      have h3 : (findings.filter fun f =>
          "可能缺少".data.isPrefixOf f.authz_gap_hint.data &&
            (f.severity == "critical" || f.severity == "high")) = [] := by
        apply List.filter_eq_nil_iff.mpr
        intro g hg
        have := hnoauthz g hg
        simp only [Bool.and_eq_true, Bool.or_eq_true, beq_iff_eq, not_and, not_or] at this ⊢
        tauto
      have h4 : hasKindIn findings "ssrf" = true := (hasKindIn_iff _ _).mpr ⟨f, hf, hk⟩
      simp only [build_attack_chains, h1, h2, h3, h4] at heq
      simp at heq
    · rintro ⟨hnoauthz, hnossrf⟩
      have h3 : (findings.filter fun f =>
          "可能缺少".data.isPrefixOf f.authz_gap_hint.data &&
            (f.severity == "critical" || f.severity == "high")) = [] := by
        apply List.filter_eq_nil_iff.mpr
        intro f hf
        have := hnoauthz f hf
        simp only [Bool.and_eq_true, Bool.or_eq_true, beq_iff_eq, not_and, not_or] at this ⊢
        tauto
      have h4 : hasKindIn findings "ssrf" = false := by
        simp only [hasKindIn, List.any_eq_false, beq_iff_eq]
        exact hnossrf
      simp [build_attack_chains, h1, h2, h3, h4]
  · intro hall
    have h1 : hasKindIn findings "path" = false := by
      simp only [hasKindIn, List.any_eq_false, beq_iff_eq]
      intro f hf
      simp [hall f hf]
    have h4 : hasKindIn findings "ssrf" = false := by
      simp only [hasKindIn, List.any_eq_false, beq_iff_eq]
      intro f hf
      simp [hall f hf]
    have hbypass : (∃ f ∈ findings,
        "可能缺少".data.isPrefixOf f.authz_gap_hint.data = true ∧
          (f.severity = "critical" ∨ f.severity = "high")) →
        build_attack_chains findings = [authzChain 1] := by
      intro hex
      have hc2 := high_authz_ne_nil hex
      simp only [build_attack_chains, h1, h4]
      rw [hc2]
      simp
    refine ⟨⟨?_, ?_⟩, hbypass⟩
    · intro heq
      by_contra hno
      push_neg at hno
      obtain ⟨f, hf, hviol⟩ := hno
      have hb := hbypass ⟨f, hf, hviol⟩
      rw [heq] at hb
      simp at hb
    · intro hnoauthz
      have h3 : (findings.filter fun f =>
          "可能缺少".data.isPrefixOf f.authz_gap_hint.data &&
            (f.severity == "critical" || f.severity == "high")) = [] := by
        apply List.filter_eq_nil_iff.mpr
        intro f hf
        have := hnoauthz f hf
        simp only [Bool.and_eq_true, Bool.or_eq_true, beq_iff_eq, not_and, not_or] at this ⊢
        tauto
      simp [build_attack_chains, h1, h3, h4]

/-- Witness for the amended C8: a concrete path+cmd findings set with the
write-then-execute chain alone (via the proved biconditional), and a
concrete query-only findings set on which the privilege-bypass chain fires
alone. -/
theorem attack_chains_amended_witness :
    build_attack_chains c8WitFindings = [wteChain 1]
    ∧ build_attack_chains c8QueryFindings = [authzChain 1] :=
  ⟨((attack_chains_amended c8WitFindings).2.1 (by decide) (by decide)).mpr
      ⟨by decide, by decide⟩,
   ((attack_chains_amended c8QueryFindings).2.2 (by decide)).2 (by decide)⟩

lemma filterMap_if {α β : Type} (p : α → Bool) (g : α → β) (l : List α) :
    l.filterMap (fun a => if p a then some (g a) else none) = (l.filter p).map g := by
  induction l with
  | nil => rfl
  | cons a t ih =>
    by_cases h : p a <;> simp [List.filterMap_cons, List.filter_cons, h, ih]

lemma firstPerCategory_cons (e : Hit) (l : List Hit) :
    firstPerCategory (e :: l) =
      e :: firstPerCategory (l.filter fun x => decide (x.category ≠ e.category)) := by
  rw [firstPerCategory]

lemma firstReps_aux :
    ∀ (l : List Hit) (acc : List (String × Hit)),
      (l.foldl (fun acc e =>
          if acc.any (fun p => p.1 == e.category) then acc
          else acc ++ [(e.category, e)]) acc).map Prod.snd =
        acc.map Prod.snd ++
          firstPerCategory (l.filter fun e => !(acc.any fun p => p.1 == e.category)) := by
  intro l
  induction l with
  | nil => intro acc; simp [firstPerCategory]
  | cons e rest ih =>
    intro acc
    by_cases h : (acc.any fun p => p.1 == e.category) = true
    · rw [List.foldl_cons, if_pos h, ih acc]
      have h1 : (e :: rest).filter (fun x => !(acc.any fun p => p.1 == x.category)) =
          rest.filter (fun x => !(acc.any fun p => p.1 == x.category)) := by
        simp [List.filter_cons, h]
      rw [h1]
    · rw [List.foldl_cons, if_neg h, ih (acc ++ [(e.category, e)])]
      have h1 : (e :: rest).filter (fun x => !(acc.any fun p => p.1 == x.category)) =
          e :: rest.filter (fun x => !(acc.any fun p => p.1 == x.category)) := by
        simp [List.filter_cons, h]
      rw [h1, firstPerCategory_cons]
      have hfil : rest.filter
            (fun x => !((acc ++ [(e.category, e)]).any fun p => p.1 == x.category)) =
          (rest.filter fun x => !(acc.any fun p => p.1 == x.category)).filter
            (fun x => decide (x.category ≠ e.category)) := by
        rw [List.filter_filter]
        apply List.filter_congr
        intro x _
        simp only [List.any_append, List.any_cons, List.any_nil, Bool.or_false,
          Bool.not_or, beq_iff_eq, Bool.and_comm]
        by_cases hx : e.category = x.category
        · simp [hx]
        · have hx2 : ¬x.category = e.category := fun hxx => hx hxx.symm
          simp [hx, hx2]
      rw [hfil]
      simp

lemma firstReps_eq (entries : List Hit) : firstReps entries = firstPerCategory entries := by
  rw [firstReps, firstReps_aux entries []]
  simp

/-- Claim C7 counterexample: in the concrete run over `cex7Fs`, the forward
flow's `unknown_risky_calls` contains the very `(file, line)` that is also a
classified candidate sink — the code does not exclude classified sinks from
the risky-call list, contrary to the claim. -/
theorem forward_flows_counterexample :
    ∃ fw ∈ build_forward_flows cex7Fs cex7Entries cex7Sinks 3 DEFAULT_KINDS,
      ∃ u ∈ fw.unknown_risky_calls, ∃ s ∈ fw.candidate_sinks,
        u.file = s.file ∧ u.line = s.line := by
  decide

/-- Claim C7 (amended): the forward FlowBuilder picks exactly one
representative source hit per distinct category (first-seen wins), and for
each representative whose file is readable (in that order, with sequential
flow ids) it scans lines `source.line` through
`min (file length) (source.line + max 80 (120·depth))`, collecting (capped
at 8) every sink hit of that file and range whose mapped kind is enabled,
plus (capped at 8) every line of the range matching the generic
risky-call-name pattern — including lines already classified as sinks. -/
theorem forward_flows_amended (fs : String → List String) (entries sinks : List Hit)
    (depth : Nat) (kinds : List String) :
    firstReps entries = firstPerCategory entries ∧
    build_forward_flows fs entries sinks depth kinds =
      ((firstPerCategory entries).filter fun src => fs src.file ≠ []).enum.map
        fun p => fwdFlowSpec fs sinks depth kinds (p.1 + 1) p.2 := by
  refine ⟨firstReps_eq entries, ?_⟩
  rw [build_forward_flows, firstReps_eq entries]
  apply List.map_congr_left
  intro p _
  simp only [fwdFlowSpec]
  congr 1
  · rw [List.filter_filter]
    apply congrArg (fun l : List Hit => l.take 8)
    apply List.filter_congr
    intro x _
    cases x.file == p.2.file <;>
      cases decide (p.2.line ≤ x.line) <;>
        cases decide (x.line ≤ min ((fs p.2.file).length : Int)
          (p.2.line + (max 80 (120 * depth) : Nat))) <;>
          cases decide (kind_from_sink x ∈ kinds) <;> rfl
  · rw [filterMap_if]

/-! ### Lemmas for claim C10: the call scan on definition lines -/

lemma not_word_of_space {c : Char} (h : isSpaceChar c = true) : isWordChar c = false := by
  simp only [isSpaceChar, Bool.or_eq_true, beq_iff_eq] at h
  rcases h with ((((h | h) | h) | h) | h) | h <;> subst h <;> decide

lemma word_of_idStart {c : Char} (h : isIdStart c = true) : isWordChar c = true := by
  simp only [isIdStart, Bool.or_eq_true, beq_iff_eq] at h
  rcases h with h | h
  · simp [isWordChar, h]
  · subst h; decide

lemma ne_paren_of_word {c : Char} (h : isWordChar c = true) : c ≠ '(' := by
  intro he
  subst he
  simp [isWordChar] at h

lemma takeWhile_append_all {p : Char → Bool} :
    ∀ {xs ys : List Char}, (∀ c ∈ xs, p c = true) →
      (xs ++ ys).takeWhile p = xs ++ ys.takeWhile p := by
  intro xs
  induction xs with
  | nil => intro ys _; simp
  | cons a t ih =>
    intro ys h
    have ha := h a (List.mem_cons_self _ _)
    simp [List.takeWhile_cons, ha, ih fun c hc => h c (List.mem_cons_of_mem _ hc)]

lemma dropWhile_append_all {p : Char → Bool} :
    ∀ {xs ys : List Char}, (∀ c ∈ xs, p c = true) →
      (xs ++ ys).dropWhile p = ys.dropWhile p := by
  intro xs
  induction xs with
  | nil => intro ys _; simp
  | cons a t ih =>
    intro ys h
    have ha := h a (List.mem_cons_self _ _)
    simp [List.dropWhile_cons, ha, ih fun c hc => h c (List.mem_cons_of_mem _ hc)]

lemma takeWhile_nil_of_head {p : Char → Bool} {ys : List Char} {c : Char}
    (hh : ys.head? = some c) (hc : p c = false) : ys.takeWhile p = [] := by
  cases ys with
  | nil => simp at hh
  | cons a t =>
    simp only [List.head?_cons, Option.some_inj] at hh
    subst hh
    simp [List.takeWhile_cons, hc]

lemma dropWhile_id_of_head {p : Char → Bool} {ys : List Char} {c : Char}
    (hh : ys.head? = some c) (hc : p c = false) : ys.dropWhile p = ys := by
  cases ys with
  | nil => rfl
  | cons a t =>
    simp only [List.head?_cons, Option.some_inj] at hh
    subst hh
    simp [List.dropWhile_cons, hc]

/-- The first character of `rest'` is not a word character whenever
`\s*\(` matches at `rest'`. -/
lemma head_nonword_of_spaceParen {rest' : List Char}
    (h : (rest'.dropWhile isSpaceChar).head? = some '(') :
    ∃ hd t, rest' = hd :: t ∧ isWordChar hd = false := by
  cases rest' with
  | nil => simp at h
  | cons hd t =>
    refine ⟨hd, t, rfl, ?_⟩
    by_cases hs : isSpaceChar hd = true
    · exact not_word_of_space hs
    · rw [dropWhile_id_of_head (List.head?_cons) (Bool.eq_false_iff.mpr hs)] at h
      simp only [List.head?_cons, Option.some_inj] at h
      subst h
      decide

lemma eq_append_drop_of_isPrefixOf {w cs : List Char} (h : w.isPrefixOf cs = true) :
    cs = w ++ cs.drop w.length := by
  obtain ⟨t, ht⟩ := List.isPrefixOf_iff_prefix.mp h
  rw [← ht, List.drop_left]

lemma eq_takeWhile_append_drop (p : Char → Bool) (l : List Char) :
    l = l.takeWhile p ++ l.drop (l.takeWhile p).length := by
  obtain ⟨t, ht⟩ := l.takeWhile_prefix p
  have h1 : List.drop (l.takeWhile p).length (l.takeWhile p ++ t) = t := List.drop_left _ _
  rw [ht] at h1
  rw [h1]
  exact ht.symm

/-- Success of the name capture `([A-Za-z_]\w*)\s*\(`: the input splits as
the captured name (non-empty, word characters, id start) followed by a
remainder at which `\s*\(` matches. -/
lemma matchDefName_spec {pos p : Nat} {name : String} {cs : List Char}
    (h : matchDefName pos cs = some (p, name)) :
    p = pos ∧ ∃ rest', cs = name.data ++ rest' ∧ name.data ≠ [] ∧
      isIdStart (name.data.headD ' ') = true ∧ (∀ c ∈ name.data, isWordChar c = true) ∧
      ((rest'.dropWhile isSpaceChar).head? = some '(') := by
  cases cs with
  | nil => simp [matchDefName] at h
  | cons c rest =>
    rw [matchDefName] at h
    by_cases hid : isIdStart c = true
    · rw [if_pos hid] at h
      by_cases hpar : (((rest.dropWhile isWordChar).dropWhile isSpaceChar).head? == some '(') = true
      · rw [if_pos hpar] at h
        simp only [Option.some_inj, Prod.mk.injEq] at h
        obtain ⟨hp, hn⟩ := h
        refine ⟨hp.symm, rest.dropWhile isWordChar, ?_, ?_, ?_, ?_, ?_⟩
        · rw [← hn]
          simp [List.takeWhile_append_dropWhile]
        · rw [← hn]; simp
        · rw [← hn]; simpa using hid
        · rw [← hn]
          intro x hx
          simp only [String.data] at hx
          rcases List.mem_cons.mp hx with rfl | hx2
          · exact word_of_idStart hid
          · exact List.mem_takeWhile_imp hx2
        · simpa using hpar
      · rw [if_neg hpar] at h
        simp at h
    · rw [if_neg hid] at h
      simp at h

/-- Success of the keyword chain `kw₁\s+...kwₙ\s+`: it consumes a block of
word/space characters. -/
lemma matchKwChain_spec :
    ∀ (kws : List (List Char)) (pos pos2 : Nat) (cs cs2 : List Char),
      (∀ w ∈ kws, ∀ c ∈ w, isWordChar c = true) →
      matchKwChain kws pos cs = some (pos2, cs2) →
      ∃ mid, cs = mid ++ cs2 ∧ (∀ c ∈ mid, isWordChar c = true ∨ isSpaceChar c = true) ∧
        pos2 = pos + mid.length := by
  intro kws
  induction kws with
  | nil =>
    intro pos pos2 cs cs2 _ h
    simp only [matchKwChain, Option.some_inj, Prod.mk.injEq] at h
    exact ⟨[], by simp [h.2.symm], by simp, by simp [h.1.symm]⟩
  | cons kw rest ih =>
    intro pos pos2 cs cs2 hws h
    rw [matchKwChain] at h
    by_cases hpre : kw.isPrefixOf cs = true
    · rw [if_pos hpre] at h
      by_cases hsp : 0 < ((cs.drop kw.length).takeWhile isSpaceChar).length
      · rw [if_pos hsp] at h
        obtain ⟨mid2, hmid2, hall2, hpos2⟩ := ih _ _ _ _
          (fun w hw => hws w (List.mem_cons_of_mem _ hw)) h
        refine ⟨kw ++ ((cs.drop kw.length).takeWhile isSpaceChar) ++ mid2, ?_, ?_, ?_⟩
        · conv_lhs => rw [eq_append_drop_of_isPrefixOf hpre]
          conv_lhs => rw [eq_takeWhile_append_drop isSpaceChar (cs.drop kw.length)]
          rw [hmid2]
          simp [List.append_assoc]
        · intro c hc
          simp only [List.append_assoc, List.mem_append] at hc
          rcases hc with hc | hc | hc
          · exact Or.inl (hws kw (List.mem_cons_self _ _) c hc)
          · exact Or.inr (List.mem_takeWhile_imp hc)
          · exact hall2 c hc
        · rw [hpos2]
          simp only [List.length_append]
          omega
      · rw [if_neg hsp] at h
        simp at h
    · rw [if_neg hpre] at h
      simp at h

/-- Success of definition patterns 1/2/3/5. -/
lemma matchKeywordDef_spec {kws : List (List Char)} {line : List Char} {p : Nat}
    {name : String} (hws : ∀ w ∈ kws, ∀ c ∈ w, isWordChar c = true)
    (h : matchKeywordDef kws line = some (p, name)) :
    ∃ pre rest', line = pre ++ name.data ++ rest' ∧ pre.length = p ∧
      (∀ c ∈ pre, isWordChar c = true ∨ isSpaceChar c = true) ∧
      name.data ≠ [] ∧ isIdStart (name.data.headD ' ') = true ∧
      (∀ c ∈ name.data, isWordChar c = true) ∧
      ((rest'.dropWhile isSpaceChar).head? = some '(') := by
  rw [matchKeywordDef] at h
  cases hc : matchKwChain kws (line.takeWhile isSpaceChar).length
      (line.drop (line.takeWhile isSpaceChar).length) with
  | none => rw [hc] at h; simp at h
  | some r =>
    rw [hc] at h
    obtain ⟨pos2, cs2⟩ := r
    obtain ⟨mid, hmid, hall, hpos2⟩ := matchKwChain_spec kws _ _ _ _ hws hc
    obtain ⟨hp, rest', hcs2, hne, hhead, hwords, hparen⟩ := matchDefName_spec h
    refine ⟨line.takeWhile isSpaceChar ++ mid, rest', ?_, ?_, ?_, hne, hhead, hwords, hparen⟩
    · conv_lhs => rw [eq_takeWhile_append_drop isSpaceChar line]
      rw [hmid, hcs2]
      simp [List.append_assoc]
    · simp only [List.length_append]
      omega
    · intro c hc2
      rcases List.mem_append.mp hc2 with hc2 | hc2
      · exact Or.inr (List.mem_takeWhile_imp hc2)
      · exact hall c hc2

/-- Success of the pattern-4 tail `\s*([A-Za-z_]\w*)\s*\([^;]*\)\s*\{`. -/
lemma p4Tail_spec {pos p : Nat} {name : String} {cs : List Char}
    (h : p4Tail pos cs = some (p, name)) :
    ∃ mid rest', cs = mid ++ name.data ++ rest' ∧
      (∀ c ∈ mid, isWordChar c = true ∨ isSpaceChar c = true) ∧ p = pos + mid.length ∧
      name.data ≠ [] ∧ isIdStart (name.data.headD ' ') = true ∧
      (∀ c ∈ name.data, isWordChar c = true) ∧
      ((rest'.dropWhile isSpaceChar).head? = some '(') := by
  rw [p4Tail] at h
  split at h
  · rename_i c rest2 hdr
    split at h
    · rename_i hid
      split at h
      · rename_i rest5 hm
        split at h
        · rename_i hp4
          simp only [Option.some_inj, Prod.mk.injEq] at h
          obtain ⟨hp, hn⟩ := h
          refine ⟨cs.takeWhile isSpaceChar, rest2.dropWhile isWordChar,
            ?_, ?_, hp.symm, ?_, ?_, ?_, ?_⟩
          · conv_lhs => rw [eq_takeWhile_append_drop isSpaceChar cs]
            rw [hdr, ← hn]
            simp [List.takeWhile_append_dropWhile]
          · intro x hx
            exact Or.inr (List.mem_takeWhile_imp hx)
          · rw [← hn]; simp
          · rw [← hn]; simpa using hid
          · rw [← hn]
            intro x hx
            rcases List.mem_cons.mp hx with rfl | hx2
            · exact word_of_idStart hid
            · exact List.mem_takeWhile_imp hx2
          · rw [hm]; rfl
        · simp at h
      · simp at h
    · simp at h
  · simp at h

lemma orElse_some_cases {α : Type} {a : Option α} {f : Unit → Option α} {r : α}
    (h : a.orElse f = some r) : a = some r ∨ (a = none ∧ f () = some r) := by
  cases a with
  | some x =>
    left
    have hx : (some x).orElse f = some x := rfl
    rw [hx] at h
    exact h
  | none =>
    right
    have hx : (none : Option α).orElse f = f () := rfl
    rw [hx] at h
    exact ⟨rfl, h⟩

lemma foldr_orElse_some {α β : Type} (f : α → Option β) :
    ∀ (ws : List α) (r : β),
      ws.foldr (fun w acc => (f w).orElse fun _ => acc) none = some r →
      ∃ w ∈ ws, f w = some r := by
  intro ws
  induction ws with
  | nil => intro r h; simp at h
  | cons w rest ih =>
    intro r h
    simp only [List.foldr_cons] at h
    rcases orElse_some_cases h with h1 | ⟨_, h1⟩
    · exact ⟨w, List.mem_cons_self _ _, h1⟩
    · obtain ⟨w2, hw2, hfw2⟩ := ih r h1
      exact ⟨w2, List.mem_cons_of_mem _ hw2, hfw2⟩

lemma MODS_words : ∀ w ∈ MODS, ∀ c ∈ w, isWordChar c = true := by decide

lemma p4F_succ_eq (fuel pos : Nat) (cs : List Char) :
    p4F (fuel + 1) pos cs =
      ((MODS.foldr
          (fun w acc =>
            ((if w.isPrefixOf cs then p4F fuel (pos + w.length) (cs.drop w.length)
              else none).orElse fun _ => acc)) none).orElse fun _ =>
        ((match cs with
          | c :: rest => if isSpaceChar c then p4F fuel (pos + 1) rest else none
          | [] => none).orElse fun _ => p4Tail pos cs)) := rfl

/-- Success of the pattern-4 greedy loop: everything consumed before the
captured name is word/space characters. -/
lemma p4F_spec :
    ∀ (fuel : Nat) (pos p : Nat) (name : String) (cs : List Char),
      p4F fuel pos cs = some (p, name) →
      ∃ mid rest', cs = mid ++ name.data ++ rest' ∧
        (∀ c ∈ mid, isWordChar c = true ∨ isSpaceChar c = true) ∧ p = pos + mid.length ∧
        name.data ≠ [] ∧ isIdStart (name.data.headD ' ') = true ∧
        (∀ c ∈ name.data, isWordChar c = true) ∧
        ((rest'.dropWhile isSpaceChar).head? = some '(') := by
  intro fuel
  induction fuel with
  | zero => intro pos p name cs h; simp [p4F] at h
  | succ fuel ih =>
    intro pos p name cs h
    rw [p4F_succ_eq] at h
    rcases orElse_some_cases h with hfold | ⟨_, h2⟩
    · obtain ⟨w, hw, hfw⟩ := foldr_orElse_some
        (fun w => if w.isPrefixOf cs then p4F fuel (pos + w.length) (cs.drop w.length)
                  else none) MODS (p, name) hfold
      by_cases hpre : w.isPrefixOf cs = true
      · rw [if_pos hpre] at hfw
        obtain ⟨mid2, rest', hdec, hall2, hp2, hrest⟩ := ih _ _ _ _ hfw
        refine ⟨w ++ mid2, rest', ?_, ?_, ?_, hrest.1, hrest.2.1, hrest.2.2.1, hrest.2.2.2⟩
        · conv_lhs => rw [eq_append_drop_of_isPrefixOf hpre]
          rw [hdec]
          simp [List.append_assoc]
        · intro c hc
          rcases List.mem_append.mp hc with hc | hc
          · exact Or.inl (MODS_words w hw c hc)
          · exact hall2 c hc
        · rw [hp2]
          simp only [List.length_append]
          omega
      · rw [if_neg hpre] at hfw
        simp at hfw
    · rcases orElse_some_cases h2 with hinner | ⟨_, h3⟩
      · split at hinner
        · rename_i c0 rest0 hf0
          split at hinner
          · rename_i hsp
            obtain ⟨mid2, rest', hdec, hall2, hp2, hrest⟩ := ih _ _ _ _ hinner
            refine ⟨c0 :: mid2, rest', by simp [hdec], ?_, ?_, hrest.1, hrest.2.1,
              hrest.2.2.1, hrest.2.2.2⟩
            · intro c hc
              rcases List.mem_cons.mp hc with rfl | hc2
              · exact Or.inr hsp
              · exact hall2 c hc2
            · rw [hp2]
              simp only [List.length_cons]
              omega
          · simp at hinner
        · simp at hinner
      · exact p4Tail_spec h3

lemma p4Match_eq (line : List Char) :
    p4Match line =
      ((MODS.foldr
          (fun w acc =>
            ((if w.isPrefixOf line then
                p4F line.length (0 + w.length) (line.drop w.length)
              else none).orElse fun _ => acc)) none).orElse fun _ =>
        match line with
        | c :: rest => if isSpaceChar c then p4F line.length 1 rest else none
        | [] => none) := by
  cases line <;> rfl

/-- Success of definition pattern 4 from the anchored entry point. -/
lemma p4Match_spec {line : List Char} {p : Nat} {name : String}
    (h : p4Match line = some (p, name)) :
    ∃ pre rest', line = pre ++ name.data ++ rest' ∧ pre.length = p ∧
      (∀ c ∈ pre, isWordChar c = true ∨ isSpaceChar c = true) ∧
      name.data ≠ [] ∧ isIdStart (name.data.headD ' ') = true ∧
      (∀ c ∈ name.data, isWordChar c = true) ∧
      ((rest'.dropWhile isSpaceChar).head? = some '(') := by
  rw [p4Match_eq] at h
  rcases orElse_some_cases h with hfold | ⟨_, h2⟩
  · obtain ⟨w, hw, hfw⟩ := foldr_orElse_some
      (fun w => if w.isPrefixOf line then
                  p4F line.length (0 + w.length) (line.drop w.length)
                else none) MODS (p, name) hfold
    by_cases hpre : w.isPrefixOf line = true
    · rw [if_pos hpre] at hfw
      obtain ⟨mid2, rest', hdec, hall2, hp2, hrest⟩ := p4F_spec _ _ _ _ _ hfw
      refine ⟨w ++ mid2, rest', ?_, ?_, ?_, hrest.1, hrest.2.1, hrest.2.2.1, hrest.2.2.2⟩
      · conv_lhs => rw [eq_append_drop_of_isPrefixOf hpre]
        rw [hdec]
        simp [List.append_assoc]
      · simp only [List.length_append]
        omega
      · intro c hc
        rcases List.mem_append.mp hc with hc | hc
        · exact Or.inl (MODS_words w hw c hc)
        · exact hall2 c hc
    · rw [if_neg hpre] at hfw
      simp at hfw
  · split at h2
    · rename_i c0 rest0 hf0
      split at h2
      · rename_i hsp
        obtain ⟨mid2, rest', hdec, hall2, hp2, hrest⟩ := p4F_spec _ _ _ _ _ h2
        refine ⟨c0 :: mid2, rest', by simp [hdec], ?_, ?_, hrest.1, hrest.2.1,
          hrest.2.2.1, hrest.2.2.2⟩
        · simp only [List.length_cons]
          omega
        · intro c hc
          rcases List.mem_cons.mp hc with rfl | hc2
          · exact Or.inr hsp
          · exact hall2 c hc2
      · simp at h2
    · simp at h2

/-- Any successful definition-pattern capture splits the line as
`pre ++ name ++ rest` where `pre` (of length `p`) is all word/space
characters, `name` is a non-empty maximal identifier, and `\s*\(` matches
right after it. -/
lemma funcDefMatch_spec {line : String} {p : Nat} {name : String}
    (h : funcDefMatch line = some (p, name)) :
    ∃ pre rest', line.data = pre ++ name.data ++ rest' ∧ pre.length = p ∧
      (∀ c ∈ pre, isWordChar c = true ∨ isSpaceChar c = true) ∧
      name.data ≠ [] ∧ isIdStart (name.data.headD ' ') = true ∧
      (∀ c ∈ name.data, isWordChar c = true) ∧
      ((rest'.dropWhile isSpaceChar).head? = some '(') := by
  rw [funcDefMatch] at h
  rcases orElse_some_cases h with h1 | ⟨_, h1⟩
  · rcases orElse_some_cases h1 with h2 | ⟨_, h2⟩
    · rcases orElse_some_cases h2 with h3 | ⟨_, h3⟩
      · rcases orElse_some_cases h3 with h4 | ⟨_, h4⟩
        · exact matchKeywordDef_spec (by decide) h4
        · exact matchKeywordDef_spec (by decide) h4
      · exact matchKeywordDef_spec (by decide) h3
    · exact p4Match_spec h2
  · exact matchKeywordDef_spec (by decide) h1

lemma lookup_eq_some_mem {β : Type} {k : String} {v : β} :
    ∀ {l : List (String × β)}, l.lookup k = some v → (k, v) ∈ l := by
  intro l
  induction l with
  | nil => intro h; simp [List.lookup] at h
  | cons q rest ih =>
    intro h
    obtain ⟨qk, qv⟩ := q
    rw [List.lookup] at h
    by_cases hq : (k == qk) = true
    · rw [hq] at h
      simp only [Option.some_inj] at h
      simp only [beq_iff_eq] at hq
      subst hq
      subst h
      exact List.mem_cons_self _ _
    · rw [Bool.eq_false_iff.mpr hq] at h
      exact List.mem_cons_of_mem _ (ih h)

lemma mem_lookup_eq_some {β : Type} {k : String} {v : β} :
    ∀ {l : List (String × β)}, (l.map Prod.fst).Nodup → (k, v) ∈ l →
      l.lookup k = some v := by
  intro l
  induction l with
  | nil => intro _ h; simp at h
  | cons q rest ih =>
    intro hn h
    obtain ⟨qk, qv⟩ := q
    rw [List.map_cons] at hn
    have hn2 := List.nodup_cons.mp hn
    rcases List.mem_cons.mp h with he | hm
    · injection he with h1 h2
      subst h1
      subst h2
      rw [List.lookup]
      simp
    · have hmem : k ∈ rest.map Prod.fst := List.mem_map_of_mem Prod.fst hm
      have hk : ¬k = qk := fun he2 => hn2.1 (he2 ▸ hmem)
      rw [List.lookup]
      have hb : (k == qk) = false := by simp [hk]
      rw [hb]
      exact ih hn2.2 hm

/-- Python `dict ==` on the modelled file-state maps: equal iff every key
looks up equally (both maps have duplicate-free keys, as Python dicts
do). -/
lemma dictEq_iff (a b : List (String × FileRec)) (ha : (a.map Prod.fst).Nodup)
    (hb : (b.map Prod.fst).Nodup) :
    dictEq a b = true ↔ ∀ k, a.lookup k = b.lookup k := by
  constructor
  · intro h k
    rw [dictEq, Bool.and_eq_true] at h
    obtain ⟨h1, h2⟩ := h
    rw [List.all_eq_true] at h1 h2
    cases hak : a.lookup k with
    | none =>
      cases hbk : b.lookup k with
      | none => rfl
      | some v =>
        have := h2 _ (lookup_eq_some_mem hbk)
        simp only [beq_iff_eq] at this
        rw [hak] at this
        exact absurd this (by simp)
    | some v =>
      have := h1 _ (lookup_eq_some_mem hak)
      simp only [beq_iff_eq] at this
      exact this.symm
  · intro h
    rw [dictEq, Bool.and_eq_true]
    constructor <;> rw [List.all_eq_true] <;> intro p hp <;> obtain ⟨k, v⟩ := p
    · have hma := mem_lookup_eq_some ha hp
      simp only [beq_iff_eq]
      rw [← h k]
      exact hma
    · have hmb := mem_lookup_eq_some hb hp
      simp only [beq_iff_eq]
      rw [h k]
      exact hmb

/-- Claim C3: a prior cache record is reused iff its parameter signature
equals the current one and its per-file state map equals the current map as
a whole (so any single tracked file changing, entering or leaving the
scanned set invalidates the cache); a missing/unparsable cache never hits;
and on a hit the pipeline emits the stored artifact bundle verbatim with
the exit status recomputed from the stored findings — the same
`exit_status` predicate the original full run returned. -/
theorem cache_reuse_spec :
    (∀ (c : CacheRecord) (curr_sig : ParamsSig) (curr_state : List (String × FileRec)),
      (c.file_state.map Prod.fst).Nodup → (curr_state.map Prod.fst).Nodup →
      ((cache_ok (some c) curr_sig curr_state = true ↔
          c.params_signature = curr_sig ∧
            ∀ k, c.file_state.lookup k = curr_state.lookup k)
        ∧ ∀ k, c.file_state.lookup k ≠ curr_state.lookup k →
            cache_ok (some c) curr_sig curr_state = false))
    ∧ (∀ (curr_sig : ParamsSig) (curr_state : List (String × FileRec)),
        cache_ok none curr_sig curr_state = false)
    ∧ (∀ c : CacheRecord, main_on_hit c = (c.artifacts, exit_status c.artifacts.findings)) := by
  refine ⟨?_, fun _ _ => rfl, fun c => rfl⟩
  intro c sig st ha hb
  have hiff : cache_ok (some c) sig st = true ↔
      c.params_signature = sig ∧ ∀ k, c.file_state.lookup k = st.lookup k := by
    rw [cache_ok, Bool.and_eq_true]
    constructor
    · rintro ⟨h1, h2⟩
      refine ⟨?_, (dictEq_iff _ _ ha hb).mp h2⟩
      have := h1
      simp only [same_signature, beq_iff_eq] at this
      exact this
    · rintro ⟨h1, h2⟩
      exact ⟨by simp [same_signature, h1], (dictEq_iff _ _ ha hb).mpr h2⟩
  refine ⟨hiff, ?_⟩
  intro k hk
  cases hok : cache_ok (some c) sig st
  · rfl
  · exact absurd ((hiff.mp hok).2 k) hk

/-- Witness for C3 at a concrete one-file cache reused against an identical
current state. -/
theorem cache_reuse_spec_witness :
    cache_ok (some c3WitCache) c3WitSig c3WitState = true :=
  ((cache_reuse_spec.1 c3WitCache c3WitSig c3WitState (by decide) (by decide)).1).mpr
    ⟨by decide, fun k => rfl⟩


/-! ### Call-pattern completeness (C10) -/

lemma tryCall_cons_eq (c : Char) (rest : List Char) :
    tryCall (c :: rest) =
      (if isIdStart c then
        match (rest.dropWhile isWordChar).dropWhile isSpaceChar with
        | '(' :: rest4 => some (⟨c :: rest.takeWhile isWordChar⟩, rest4)
        | _ => none
      else none) := rfl

lemma scanCalls_cons_eq (fuel : Nat) (prev : Bool) (c : Char) (rest : List Char) :
    scanCalls (fuel + 1) prev (c :: rest) =
      (if prev then scanCalls fuel (isWordChar c) rest
       else
         match tryCall (c :: rest) with
         | some (nm, rest4) => nm :: scanCalls fuel false rest4
         | none => scanCalls fuel (isWordChar c) rest) := rfl

lemma not_space_of_word {c : Char} (h : isWordChar c = true) : isSpaceChar c = false := by
  cases hsp : isSpaceChar c
  · rfl
  · rw [not_word_of_space hsp] at h
    exact absurd h (by simp)

lemma head_dropWhile_false {p : Char → Bool} :
    ∀ {l : List Char} {a : Char} {t : List Char}, l.dropWhile p = a :: t → p a = false := by
  intro l
  induction l with
  | nil => intro a t h; simp at h
  | cons b l2 ih =>
    intro a t h
    rw [List.dropWhile_cons] at h
    by_cases hb : p b = true
    · rw [if_pos hb] at h
      exact ih h
    · rw [if_neg hb] at h
      injection h with h1 _
      subst h1
      exact Bool.eq_false_iff.mpr hb

lemma tryCall_success {name : String} {rest' : List Char}
    (hne : name.data ≠ []) (hid : isIdStart (name.data.headD ' ') = true)
    (hall : ∀ c ∈ name.data, isWordChar c = true)
    (hrest : (rest'.dropWhile isSpaceChar).head? = some '(') :
    ∃ rest4, tryCall (name.data ++ rest') = some (name, rest4) := by
  obtain ⟨hd, t, hrs, hw⟩ := head_nonword_of_spaceParen hrest
  cases hnd : name.data with
  | nil => exact absurd hnd hne
  | cons c nt =>
    have hidc : isIdStart c = true := by rw [hnd] at hid; simpa using hid
    have hntw : ∀ x ∈ nt, isWordChar x = true := fun x hx =>
      hall x (by rw [hnd]; exact List.mem_cons_of_mem _ hx)
    have hrh : rest'.head? = some hd := by rw [hrs]; rfl
    have hdw : (nt ++ rest').dropWhile isWordChar = rest' := by
      rw [dropWhile_append_all hntw, dropWhile_id_of_head hrh hw]
    have htw : (nt ++ rest').takeWhile isWordChar = nt := by
      rw [takeWhile_append_all hntw, takeWhile_nil_of_head hrh hw, List.append_nil]
    cases hds : rest'.dropWhile isSpaceChar with
    | nil => rw [hds] at hrest; simp at hrest
    | cons d t4 =>
      rw [hds] at hrest
      simp only [List.head?_cons, Option.some_inj] at hrest
      subst hrest
      refine ⟨t4, ?_⟩
      rw [List.cons_append, tryCall_cons_eq, if_pos hidc, hdw, hds, htw, ← hnd]
      rfl

lemma tryCall_none {c : Char} {rest : List Char} {w : Char}
    (hw : ((rest.dropWhile isWordChar).dropWhile isSpaceChar).head? = some w)
    (hword : isWordChar w = true) : tryCall (c :: rest) = none := by
  rw [tryCall_cons_eq]
  by_cases hid : isIdStart c = true
  · rw [if_pos hid]
    cases hm : (rest.dropWhile isWordChar).dropWhile isSpaceChar with
    | nil => rw [hm] at hw
    | cons d t =>
      rw [hm] at hw
      simp only [List.head?_cons, Option.some_inj] at hw
      subst hw
      split
      · rename_i rest4 heq
        injection heq with h1 _
        exact absurd h1 (ne_paren_of_word hword)
      · rfl
  · rw [if_neg hid]

lemma scan_mid_head_word {pre2 : List Char} {name : String} {rest' : List Char}
    (hpre : ∀ c ∈ pre2, isWordChar c = true ∨ isSpaceChar c = true)
    (hlast : ∃ l sp, pre2 = l ++ [sp] ∧ isSpaceChar sp = true)
    (hne : name.data ≠ []) (hid : isIdStart (name.data.headD ' ') = true) :
    ∃ w, (((pre2 ++ name.data ++ rest').dropWhile isWordChar).dropWhile
          isSpaceChar).head? = some w ∧ isWordChar w = true := by
  obtain ⟨l, sp, hdec, hsp⟩ := hlast
  have hkw : ∀ x ∈ pre2.takeWhile isWordChar, isWordChar x = true :=
    fun x hx => List.mem_takeWhile_imp hx
  cases hr : pre2.dropWhile isWordChar with
  | nil =>
    have hall := List.dropWhile_eq_nil_iff.mp hr
    have hspw : isWordChar sp = true := hall sp (by rw [hdec]; simp)
    rw [not_word_of_space hsp] at hspw
    exact absurd hspw (by simp)
  | cons a r2 =>
    have haw : isWordChar a = false := head_dropWhile_false hr
    have hsplit : pre2 = pre2.takeWhile isWordChar ++ (a :: r2) := by
      rw [← hr, List.takeWhile_append_dropWhile]
    have hstep1 : (pre2 ++ name.data ++ rest').dropWhile isWordChar
        = (a :: r2) ++ (name.data ++ rest') := by
      conv_lhs => rw [hsplit]
      rw [List.append_assoc, List.append_assoc, dropWhile_append_all hkw]
      exact dropWhile_id_of_head rfl haw
    rw [hstep1]
    have hmem2 : ∀ x ∈ a :: r2, isWordChar x = true ∨ isSpaceChar x = true := by
      intro x hx
      refine hpre x ?_
      rw [hsplit]
      exact List.mem_append.mpr (Or.inr hx)
    have hms : ∀ x ∈ (a :: r2).takeWhile isSpaceChar, isSpaceChar x = true :=
      fun x hx => List.mem_takeWhile_imp hx
    cases hr2 : (a :: r2).dropWhile isSpaceChar with
    | nil =>
      have hallsp : ∀ x ∈ a :: r2, isSpaceChar x = true :=
        List.dropWhile_eq_nil_iff.mp hr2
      cases hnd : name.data with
      | nil => exact absurd hnd hne
      | cons c nt =>
        have hcw : isWordChar c = true := by
          refine word_of_idStart ?_
          rw [hnd] at hid
          simpa using hid
        refine ⟨c, ?_, hcw⟩
        rw [dropWhile_append_all hallsp]
        have hh : ((c :: nt) ++ rest').head? = some c := rfl
        rw [dropWhile_id_of_head hh (not_space_of_word hcw)]
        rfl
    | cons b r3 =>
      have hbs : isSpaceChar b = false := head_dropWhile_false hr2
      have hbw : isWordChar b = true := by
        have hmem : b ∈ a :: r2 :=
          (List.dropWhile_sublist isSpaceChar).mem
            (by rw [hr2]; exact List.mem_cons_self _ _)
        rcases hmem2 b hmem with h | h
        · exact h
        · rw [h] at hbs
          exact absurd hbs (by simp)
      refine ⟨b, ?_, hbw⟩
      have hsplit2 : (a :: r2) = (a :: r2).takeWhile isSpaceChar ++ (b :: r3) := by
        rw [← hr2, List.takeWhile_append_dropWhile]
      conv_lhs => rw [hsplit2]
      rw [List.append_assoc, dropWhile_append_all hms]
      have hh : ((b :: r3) ++ (name.data ++ rest')).head? = some b := rfl
      rw [dropWhile_id_of_head hh hbs]
      rfl

lemma scanCalls_complete :
    ∀ (pre : List Char) (fuel : Nat) (prev : Bool) (name : String) (rest' : List Char),
      (pre ++ name.data ++ rest').length ≤ fuel →
      (∀ c ∈ pre, isWordChar c = true ∨ isSpaceChar c = true) →
      (pre = [] → prev = false) →
      (∀ l sp, pre = l ++ [sp] → isSpaceChar sp = true) →
      name.data ≠ [] → isIdStart (name.data.headD ' ') = true →
      (∀ c ∈ name.data, isWordChar c = true) →
      ((rest'.dropWhile isSpaceChar).head? = some '(') →
      name ∈ scanCalls fuel prev (pre ++ name.data ++ rest') := by
  intro pre
  induction pre with
  | nil =>
    intro fuel prev name rest' hfuel hpre hpe hpl hne hid hall hrest
    obtain ⟨rest4, htc⟩ := tryCall_success hne hid hall hrest
    have hlen : 1 ≤ name.data.length := List.length_pos.mpr hne
    cases fuel with
    | zero =>
      simp only [List.nil_append, List.length_append] at hfuel
      omega
    | succ f =>
      cases hnd : name.data with
      | nil => exact absurd hnd hne
      | cons c nt =>
        have hgoal : ([] : List Char) ++ (c :: nt) ++ rest' = c :: (nt ++ rest') := by
          simp
        rw [hgoal, scanCalls_cons_eq, hpe rfl]
        simp only [Bool.false_eq_true, if_false]
        split
        · rename_i nm rest5 heq
          have heq2 : tryCall (name.data ++ rest') = some (nm, rest5) := by
            rw [hnd, List.cons_append]
            exact heq
          rw [htc] at heq2
          injection heq2 with h3
          injection h3 with h1 _
          rw [← h1]
          exact List.mem_cons_self _ _
        · rename_i heq
          have heq2 : tryCall (name.data ++ rest') = none := by
            rw [hnd, List.cons_append]
            exact heq
          rw [htc] at heq2
          exact absurd heq2 (by simp)
  | cons a pre2 ih =>
    intro fuel prev name rest' hfuel hpre hpe hpl hne hid hall hrest
    have hcons : (a :: pre2) ++ name.data ++ rest' = a :: (pre2 ++ name.data ++ rest') := by
      rfl
    rw [hcons] at hfuel ⊢
    cases fuel with
    | zero => simp at hfuel
    | succ f =>
      have hf2 : (pre2 ++ name.data ++ rest').length ≤ f := by
        simp only [List.length_cons] at hfuel
        omega
      have hpre2 : ∀ c ∈ pre2, isWordChar c = true ∨ isSpaceChar c = true :=
        fun c hc => hpre c (List.mem_cons_of_mem _ hc)
      have hpe2 : pre2 = [] → isWordChar a = false := by
        intro he
        subst he
        exact not_word_of_space (hpl [] a rfl)
      have hpl2 : ∀ l sp, pre2 = l ++ [sp] → isSpaceChar sp = true := by
        intro l sp hdec
        exact hpl (a :: l) sp (by rw [hdec]; rfl)
      have hrec : name ∈ scanCalls f (isWordChar a) (pre2 ++ name.data ++ rest') :=
        ih f (isWordChar a) name rest' hf2 hpre2 hpe2 hpl2 hne hid hall hrest
      rw [scanCalls_cons_eq]
      by_cases hprev : prev = true
      · rw [if_pos hprev]
        exact hrec
      · rw [if_neg hprev]
        have htc : tryCall (a :: (pre2 ++ name.data ++ rest')) = none := by
          cases hp2 : pre2 with
          | nil =>
            have hsp : isSpaceChar a = true := hpl [] a (by rw [hp2]; rfl)
            have hna : ¬ isIdStart a = true := by
              intro hida
              have hw := word_of_idStart hida
              rw [not_word_of_space hsp] at hw
              exact absurd hw (by simp)
            rw [tryCall_cons_eq, if_neg hna]
          | cons b pr3 =>
            have hlast : ∃ l sp, pre2 = l ++ [sp] ∧ isSpaceChar sp = true := by
              have hne2 : pre2 ≠ [] := by rw [hp2]; simp
              refine ⟨pre2.dropLast, pre2.getLast hne2,
                (List.dropLast_append_getLast hne2).symm, ?_⟩
              refine hpl (a :: pre2.dropLast) (pre2.getLast hne2) ?_
              conv_lhs => rw [← List.dropLast_append_getLast hne2]
              rw [List.cons_append]
            obtain ⟨w, hw, hword⟩ := scan_mid_head_word hpre2 hlast hne hid
            rw [hp2] at hw
            exact tryCall_none hw hword
        split
        · rename_i nm rest5 heq
          rw [htc] at heq
          exact absurd heq (by simp)
        · exact hrec

/-- Call-scan completeness on one line: any identifier occurrence at a left
word boundary (start of line or preceded by a space), followed by `\s*(`,
with only word/space characters before it, is captured by the
`CALL_PATTERNS[0]` scan. -/
lemma collectCalls_complete {line : String} {pre : List Char} {name : String}
    {rest' : List Char}
    (hdec : line.data = pre ++ name.data ++ rest')
    (hpre : ∀ c ∈ pre, isWordChar c = true ∨ isSpaceChar c = true)
    (hpl : ∀ l sp, pre = l ++ [sp] → isSpaceChar sp = true)
    (hne : name.data ≠ []) (hid : isIdStart (name.data.headD ' ') = true)
    (hall : ∀ c ∈ name.data, isWordChar c = true)
    (hrest : (rest'.dropWhile isSpaceChar).head? = some '(') :
    name ∈ collectCalls line := by
  rw [collectCalls, hdec]
  exact scanCalls_complete pre _ false name rest' (le_refl _) hpre (fun _ => rfl)
    hpl hne hid hall hrest

lemma mem_enumFrom_getD :
    ∀ (l : List String) (n i : Nat), i < l.length →
      (n + i, l.getD i "") ∈ l.enumFrom n := by
  intro l
  induction l with
  | nil => intro n i h; simp at h
  | cons a t ih =>
    intro n i h
    cases i with
    | zero => simp [List.enumFrom]
    | succ j =>
      have hmem := ih (n + 1) j (by simpa using h)
      refine List.mem_cons_of_mem _ ?_
      have harith : n + (j + 1) = n + 1 + j := by omega
      rw [harith]
      simpa using hmem

lemma mem_enum_getD (l : List String) (i : Nat) (h : i < l.length) :
    (i, l.getD i "") ∈ l.enum := by
  have := mem_enumFrom_getD l 0 i h
  simpa [List.enum] using this

lemma getD_concat : ∀ (l : List Char) (sp : Char), (l ++ [sp]).getD l.length ' ' = sp := by
  intro l
  induction l with
  | nil => intro sp; rfl
  | cons a t ih => intro sp; simpa using ih sp

lemma mkBackwardFlow_function_stack (σ : List String → List String)
    (fs : String → List String) (entries : List Hit)
    (calls_index : List (String × LineRef)) (depth i : Nat) (sink : Hit) :
    (mkBackwardFlow σ fs entries calls_index depth i sink).function_stack =
      (sink.file ++ ":" ++ enclosing_function (fs sink.file) sink.line ++ ":"
          ++ toString sink.line)
        :: (find_callers (enclosing_function (fs sink.file) sink.line) calls_index
              (max 1 depth)).map fun c => c.file ++ ":<callsite>:" ++ toString c.line := rfl

lemma call_stack_reason_mem (flow : Flow) (fwd : List FwdFlow) (az : List LineRef)
    (h : 1 < flow.function_stack.length) :
    "存在调用栈证据 +8" ∈ (calc_evidence_score flow fwd az).2 := by
  have hc : flow.function_stack ≠ [] ∧ flow.function_stack.length > 1 := by
    refine ⟨fun e => ?_, h⟩
    rw [e] at h
    simp at h
  simp only [calc_evidence_score, if_pos hc]
  simp

/-- C10 is refuted as stated: in `c10Fs`, the definition pattern captures
`foo` on line 1 of the indexed file `d.c` (via backtracking inside
`publicfoo`), `foo` is not reserved, yet the call index has no entry at all
for `foo` — the call scan on the definition line captures `publicfoo`
instead, since `foo` has a word character on its left and `\b` fails there.
The backward flow for the sink in `foo` therefore has a one-frame
function stack and no `+8` call-stack reasoning. -/
theorem call_index_selfref_counterexample :
    funcDefMatch ((c10Fs "d.c").getD 0 "") = some (6, "foo")
    ∧ "foo" ∉ KEYWORDS
    ∧ enclosing_function (c10Fs "d.c") c10Sink.line = "foo"
    ∧ (∀ r ∈ (index_functions c10Fs ["d.c"]).2, r.1 ≠ "foo")
    ∧ (mkBackwardFlow cexSetOrder c10Fs [] (index_functions c10Fs ["d.c"]).2 2 1
        c10Sink).function_stack.length = 1
    ∧ "存在调用栈证据 +8" ∉
        (calc_evidence_score
          (mkBackwardFlow cexSetOrder c10Fs [] (index_functions c10Fs ["d.c"]).2 2 1
            c10Sink) [] []).2 := by
  decide

/-- Claim C10 (amended): for every backward flow whose sink's
enclosing-function name is captured by a definition pattern on a line of an
indexed file, **at a left word boundary** (the capture starts the line or
follows a non-word character), and is not in the reserved-word set, the call
index contains that definition line itself as a call site for the name (the
identifier-followed-by-open-parenthesis scan matches the definition line), so
the flow's function_stack has at least two frames and the +8 call-stack bonus
of `calc_evidence_score` applies even when no real caller of the function
exists anywhere. -/
theorem call_index_selfref_amended
    (fs : String → List String) (files : List String) (σ : List String → List String)
    (rel : String) (i p : Nat) (name : String) (entries : List Hit)
    (depth j : Nat) (sink : Hit) (fwd : List FwdFlow) (az : List LineRef)
    (hrel : rel ∈ files) (hi : i < (fs rel).length)
    (hdef : funcDefMatch ((fs rel).getD i "") = some (p, name))
    (hb : p = 0 ∨ isWordChar (((fs rel).getD i "").data.getD (p - 1) ' ') = false)
    (hkw : name ∉ KEYWORDS)
    (henc : enclosing_function (fs sink.file) sink.line = name) :
    (name, LineRef.mk rel ((i : Int) + 1) (takeStr 180 (pyStrip ((fs rel).getD i ""))))
        ∈ (index_functions fs files).2
    ∧ 1 < (mkBackwardFlow σ fs entries ((index_functions fs files).2) depth j
        sink).function_stack.length
    ∧ "存在调用栈证据 +8" ∈
        (calc_evidence_score
          (mkBackwardFlow σ fs entries ((index_functions fs files).2) depth j sink)
          fwd az).2 := by
  obtain ⟨pre, rest', hsplit, hplen, hpws, hnne, hnid, hnall, hnrest⟩ :=
    funcDefMatch_spec hdef
  have hpl : ∀ l sp, pre = l ++ [sp] → isSpaceChar sp = true := by
    intro l sp hd
    rcases hb with hb | hb
    · rw [hd] at hplen
      simp only [List.length_append, List.length_cons, List.length_nil] at hplen
      omega
    · have hlen : l.length = p - 1 := by
        rw [hd] at hplen
        simp only [List.length_append, List.length_cons, List.length_nil] at hplen
        omega
      have hp1 : 1 ≤ p := by
        rw [← hplen, hd]
        simp only [List.length_append, List.length_cons, List.length_nil]
        omega
      have hlt : p - 1 < pre.length := by
        rw [hplen]
        omega
      have hget : ((fs rel).getD i "").data.getD (p - 1) ' ' = sp := by
        rw [hsplit]
        rw [List.append_assoc]
        rw [List.getD_append _ _ _ _ hlt]
        rw [hd, ← hlen]
        exact getD_concat l sp
      rw [hget] at hb
      rcases hpws sp (by rw [hd]; simp) with h | h
      · rw [hb] at h; exact absurd h (by simp)
      · exact h
  have hcall : name ∈ collectCalls ((fs rel).getD i "") :=
    collectCalls_complete hsplit hpws hpl hnne hnid hnall hnrest
  have hmem : (name, LineRef.mk rel ((i : Int) + 1)
      (takeStr 180 (pyStrip ((fs rel).getD i "")))) ∈ (index_functions fs files).2 := by
    simp only [index_functions]
    refine List.mem_flatMap.mpr ⟨rel, hrel, ?_⟩
    refine List.mem_flatMap.mpr ⟨(i, (fs rel).getD i ""), mem_enum_getD _ _ hi, ?_⟩
    refine List.mem_filterMap.mpr ⟨name, hcall, ?_⟩
    rw [if_neg hkw]
  refine ⟨hmem, ?_, ?_⟩
  · rw [mkBackwardFlow_function_stack, henc]
    have hfc : find_callers name ((index_functions fs files).2) (max 1 depth) ≠ [] := by
      rw [find_callers]
      intro he
      rw [← List.length_eq_zero] at he
      rw [List.length_take, List.length_map] at he
      have hpos : 0 < (((index_functions fs files).2).filter
          fun q => q.1 == name).length := by
        refine List.length_pos.mpr ?_
        intro hnil
        have := List.filter_eq_nil_iff.mp hnil _ hmem
        simp at this
      have h1 : 1 ≤ max 1 depth := le_max_left 1 depth
      omega
    simp only [List.length_cons]
    cases hf : find_callers name ((index_functions fs files).2) (max 1 depth) with
    | nil => exact absurd hf hfc
    | cons x xs => simp
  · refine call_stack_reason_mem _ _ _ ?_
    rw [mkBackwardFlow_function_stack, henc]
    have hfc : find_callers name ((index_functions fs files).2) (max 1 depth) ≠ [] := by
      rw [find_callers]
      intro he
      rw [← List.length_eq_zero] at he
      rw [List.length_take, List.length_map] at he
      have hpos : 0 < (((index_functions fs files).2).filter
          fun q => q.1 == name).length := by
        refine List.length_pos.mpr ?_
        intro hnil
        have := List.filter_eq_nil_iff.mp hnil _ hmem
        simp at this
      have h1 : 1 ≤ max 1 depth := le_max_left 1 depth
      omega
    simp only [List.length_cons]
    cases hf : find_callers name ((index_functions fs files).2) (max 1 depth) with
    | nil => exact absurd hf hfc
    | cons x xs => simp

/-- Witness for the amended C10 on a boundary-respecting definition line. -/
theorem call_index_selfref_amended_witness :
    ("foo", LineRef.mk "w.c" 1 (takeStr 180 (pyStrip ((c10WitFs "w.c").getD 0 ""))))
        ∈ (index_functions c10WitFs ["w.c"]).2
    ∧ 1 < (mkBackwardFlow cexSetOrder c10WitFs [] ((index_functions c10WitFs ["w.c"]).2)
        2 1 c10WitSink).function_stack.length
    ∧ "存在调用栈证据 +8" ∈
        (calc_evidence_score
          (mkBackwardFlow cexSetOrder c10WitFs [] ((index_functions c10WitFs ["w.c"]).2)
            2 1 c10WitSink) [] []).2 :=
  call_index_selfref_amended c10WitFs ["w.c"] cexSetOrder "w.c" 0 7 "foo" [] 2 1
    c10WitSink [] [] (by decide) (by decide) (by decide) (by decide) (by decide)
    (by decide)


/-! ### Oracle-invariance of the pipeline (C9) -/

lemma list_ne_nil_iff_mem {α : Type} {l : List α} : l ≠ [] ↔ ∃ x, x ∈ l := by
  cases l <;> simp

lemma setOrder_ne_nil {σ : List String → List String} (h : SetOrderSound σ)
    (l : List String) : σ l ≠ [] ↔ l ≠ [] := by
  rw [list_ne_nil_iff_mem, list_ne_nil_iff_mem]
  constructor
  · rintro ⟨x, hx⟩
    exact ⟨x, ((h l).2 x).mp hx⟩
  · rintro ⟨x, hx⟩
    exact ⟨x, ((h l).2 x).mpr hx⟩

lemma overlap_ne_nil_iff {σ : List String → List String} (h : SetOrderSound σ)
    (A B : List String) :
    σ ((σ A).filter fun x => (σ B).contains x) ≠ [] ↔ ∃ x, x ∈ A ∧ x ∈ B := by
  rw [setOrder_ne_nil h, list_ne_nil_iff_mem]
  constructor
  · rintro ⟨x, hx⟩
    rw [List.mem_filter] at hx
    obtain ⟨hxa, hxb⟩ := hx
    refine ⟨x, ((h A).2 x).mp hxa, ((h B).2 x).mp ?_⟩
    simpa using hxb
  · rintro ⟨x, hxa, hxb⟩
    refine ⟨x, ?_⟩
    rw [List.mem_filter]
    refine ⟨((h A).2 x).mpr hxa, ?_⟩
    simpa using ((h B).2 x).mpr hxb

lemma take_pos_ne_nil {α : Type} {l : List α} {n : Nat} (hn : n ≠ 0) :
    l.take n ≠ [] ↔ l ≠ [] := by
  rw [Ne, Ne, List.take_eq_nil_iff]
  simp [hn]

lemma variableChainOf_ne_nil_iff {σ1 σ2 : List String → List String}
    (h1 : SetOrderSound σ1) (h2 : SetOrderSound σ2) (s t : String) :
    (variableChainOf σ1 s t ≠ []) ↔ (variableChainOf σ2 s t ≠ []) := by
  simp only [variableChainOf]
  by_cases ho : ∃ x, x ∈ extract_identifiers s ∧ x ∈ extract_identifiers t
  · have ho1 := (overlap_ne_nil_iff h1 (extract_identifiers s) (extract_identifiers t)).mpr ho
    have ho2 := (overlap_ne_nil_iff h2 (extract_identifiers s) (extract_identifiers t)).mpr ho
    rw [if_pos ho1, if_pos ho2]
    exact iff_of_true ((take_pos_ne_nil (by decide)).mpr ho1)
      ((take_pos_ne_nil (by decide)).mpr ho2)
  · have ho1 : ¬ σ1 ((σ1 (extract_identifiers s)).filter
        fun x => (σ1 (extract_identifiers t)).contains x) ≠ [] :=
      fun hne => ho ((overlap_ne_nil_iff h1 _ _).mp hne)
    have ho2 : ¬ σ2 ((σ2 (extract_identifiers s)).filter
        fun x => (σ2 (extract_identifiers t)).contains x) ≠ [] :=
      fun hne => ho ((overlap_ne_nil_iff h2 _ _).mp hne)
    rw [if_neg ho1, if_neg ho2]
    rw [take_pos_ne_nil (by decide), take_pos_ne_nil (by decide),
      setOrder_ne_nil h1, setOrder_ne_nil h2]

lemma mkBackwardFlow_variable_chain (σ : List String → List String)
    (fs : String → List String) (entries : List Hit)
    (calls_index : List (String × LineRef)) (depth i : Nat) (sink : Hit) :
    (mkBackwardFlow σ fs entries calls_index depth i sink).variable_chain =
      variableChainOf σ (bwdSrcText fs entries sink depth) (bwdSinkText fs sink) := rfl

lemma scrubFlow_fields {f1 f2 : Flow} (hs : scrubFlow f1 = scrubFlow f2) :
    f1.flow_id = f2.flow_id ∧ f1.kind = f2.kind ∧ f1.severity = f2.severity ∧
    f1.sink = f2.sink ∧ f1.source = f2.source ∧
    f1.function_stack = f2.function_stack ∧ f1.guards = f2.guards ∧
    f1.sanitizers = f2.sanitizers ∧ f1.evidence = f2.evidence ∧
    f1.notes = f2.notes := by
  rw [scrubFlow, scrubFlow] at hs
  injection hs with h1 h2 h3 h4 h5 h6 h7 h8 h9 h10 h11
  exact ⟨h1, h2, h3, h4, h5, h6, h8, h9, h10, h11⟩

lemma calc_score_scrub_invariant {f1 f2 : Flow} (fwd : List FwdFlow) (az : List LineRef)
    (hs : scrubFlow f1 = scrubFlow f2)
    (hv : f1.variable_chain ≠ [] ↔ f2.variable_chain ≠ []) :
    calc_evidence_score f1 fwd az = calc_evidence_score f2 fwd az := by
  obtain ⟨hid, hkind, hsev, hsink, hsrc, hfs, hguard, hsan, hev, hnotes⟩ :=
    scrubFlow_fields hs
  have h7 : (if f1.variable_chain ≠ [] then (7 : Int) else 0)
      = (if f2.variable_chain ≠ [] then (7 : Int) else 0) := if_congr hv rfl rfl
  have hl : (if f1.variable_chain ≠ [] then ["变量链线索 +7"] else ([] : List String))
      = (if f2.variable_chain ≠ [] then ["变量链线索 +7"] else ([] : List String)) :=
    if_congr hv rfl rfl
  simp only [calc_evidence_score, hsev, hsrc, hfs, hsink, hsan, hguard, h7, hl]

lemma mkFinding_scrub_invariant {f1 f2 : Flow} (fwd : List FwdFlow) (az : List LineRef)
    (idx : Nat) (hs : scrubFlow f1 = scrubFlow f2)
    (hv : f1.variable_chain ≠ [] ↔ f2.variable_chain ≠ []) :
    scrubFinding (mkFinding fwd az idx f1) = scrubFinding (mkFinding fwd az idx f2) := by
  have hc := calc_score_scrub_invariant fwd az hs hv
  obtain ⟨hid, hkind, hsev, hsink, hsrc, hfs, hguard, hsan, hev, hnotes⟩ :=
    scrubFlow_fields hs
  simp only [mkFinding, scrubFinding, hc, hsev, hkind, hsrc, hfs, hsink, hsan, hguard,
    hev, hnotes]

lemma forall2_filterMap {α β : Type} (g1 g2 : α → Option β) (R : β → β → Prop)
    (h : ∀ a, (g1 a = none ∧ g2 a = none) ∨
      ∃ b1 b2, g1 a = some b1 ∧ g2 a = some b2 ∧ R b1 b2) :
    ∀ l : List α, List.Forall₂ R (l.filterMap g1) (l.filterMap g2) := by
  intro l
  induction l with
  | nil => simp
  | cons a t ih =>
    rcases h a with ⟨ha1, ha2⟩ | ⟨b1, b2, ha1, ha2, hr⟩
    · rw [List.filterMap_cons_none ha1, List.filterMap_cons_none ha2]
      exact ih
    · rw [List.filterMap_cons_some ha1, List.filterMap_cons_some ha2]
      exact List.Forall₂.cons hr ih

lemma build_backward_flows_parallel {σ1 σ2 : List String → List String}
    (h1 : SetOrderSound σ1) (h2 : SetOrderSound σ2)
    (fs : String → List String) (sinks entries : List Hit)
    (dIdx : List (String × FileLine)) (cIdx : List (String × LineRef))
    (depth : Nat) (kinds : List String) :
    List.Forall₂ (fun fl1 fl2 => scrubFlow fl1 = scrubFlow fl2 ∧
        (fl1.variable_chain ≠ [] ↔ fl2.variable_chain ≠ []))
      (build_backward_flows σ1 fs sinks entries dIdx cIdx depth kinds)
      (build_backward_flows σ2 fs sinks entries dIdx cIdx depth kinds) := by
  rw [build_backward_flows, build_backward_flows]
  refine forall2_filterMap _ _ _ ?_ _
  intro p
  by_cases hk : kind_from_sink p.2 ∈ kinds
  · by_cases hf : fs p.2.file ≠ []
    · right
      refine ⟨mkBackwardFlow σ1 fs entries cIdx depth (p.1 + 1) p.2,
        mkBackwardFlow σ2 fs entries cIdx depth (p.1 + 1) p.2,
        by rw [if_pos hk, if_pos hf], by rw [if_pos hk, if_pos hf], rfl, ?_⟩
      rw [mkBackwardFlow_variable_chain, mkBackwardFlow_variable_chain]
      exact variableChainOf_ne_nil_iff h1 h2 _ _
    · left
      constructor <;> rw [if_pos hk, if_neg hf]
  · left
    constructor <;> rw [if_neg hk]

lemma build_findings_dedup_cons (fwd : List FwdFlow) (az : List LineRef) (flow : Flow)
    (rest : List Flow) (seen : List (String × Int × String)) (idx : Nat) :
    build_findings_dedup fwd az (flow :: rest) seen idx =
      (if flowKey flow ∈ seen then build_findings_dedup fwd az rest seen idx
       else mkFinding fwd az idx flow ::
         build_findings_dedup fwd az rest (flowKey flow :: seen) (idx + 1)) := rfl

lemma dedup_parallel (fwd : List FwdFlow) (az : List LineRef) :
    ∀ {l1 l2 : List Flow},
      List.Forall₂ (fun fl1 fl2 => scrubFlow fl1 = scrubFlow fl2 ∧
        (fl1.variable_chain ≠ [] ↔ fl2.variable_chain ≠ [])) l1 l2 →
      ∀ (seen : List (String × Int × String)) (idx : Nat),
        (build_findings_dedup fwd az l1 seen idx).map scrubFinding =
          (build_findings_dedup fwd az l2 seen idx).map scrubFinding := by
  intro l1 l2 h
  induction h with
  | nil => intro seen idx; rfl
  | cons hr ht ih =>
    rename_i a b t1 t2
    intro seen idx
    obtain ⟨hs, hv⟩ := hr
    obtain ⟨hid, hkind, hsev, hsink, hsrc, hfs, hguard, hsan, hev, hnotes⟩ :=
      scrubFlow_fields hs
    have hkey : flowKey a = flowKey b := by
      rw [flowKey, flowKey, hsink, hkind]
    rw [build_findings_dedup_cons, build_findings_dedup_cons, hkey]
    by_cases hmem : flowKey b ∈ seen
    · rw [if_pos hmem, if_pos hmem]
      exact ih seen idx
    · rw [if_neg hmem, if_neg hmem, List.map_cons, List.map_cons,
        mkFinding_scrub_invariant fwd az idx hs hv, ih (flowKey b :: seen) (idx + 1)]

lemma any_eq_of_scrub {l1 l2 : List Finding} (q : Finding → Bool)
    (hq : ∀ f, q (scrubFinding f) = q f)
    (h : l1.map scrubFinding = l2.map scrubFinding) :
    l1.any q = l2.any q := by
  have e : ∀ l : List Finding, l.any q = (l.map scrubFinding).any q := by
    intro l
    rw [List.any_map]
    congr 1
    funext f
    exact (hq f).symm
  rw [e l1, e l2, h]

lemma filter_isEmpty_eq_not_any (p : Finding → Bool) :
    ∀ l : List Finding, (l.filter p).isEmpty = !(l.any p) := by
  intro l
  induction l with
  | nil => rfl
  | cons a t ih =>
    rw [List.filter_cons, List.any_cons]
    by_cases hp : p a = true
    · rw [if_pos hp, hp]
      simp
    · have hpf : p a = false := Bool.eq_false_iff.mpr hp
      rw [if_neg hp, ih, hpf]
      simp

lemma build_attack_chains_scrub {l1 l2 : List Finding}
    (h : l1.map scrubFinding = l2.map scrubFinding) :
    build_attack_chains l1 = build_attack_chains l2 := by
  have hk : ∀ k, hasKindIn l1 k = hasKindIn l2 k := by
    intro k
    rw [hasKindIn, hasKindIn]
    exact any_eq_of_scrub (fun f => f.kind == k) (fun f => rfl) h
  have ha : (l1.filter fun f =>
        "可能缺少".data.isPrefixOf f.authz_gap_hint.data &&
          (f.severity == "critical" || f.severity == "high")).isEmpty
      = (l2.filter fun f =>
        "可能缺少".data.isPrefixOf f.authz_gap_hint.data &&
          (f.severity == "critical" || f.severity == "high")).isEmpty := by
    rw [filter_isEmpty_eq_not_any, filter_isEmpty_eq_not_any,
      any_eq_of_scrub (fun f =>
        "可能缺少".data.isPrefixOf f.authz_gap_hint.data &&
          (f.severity == "critical" || f.severity == "high")) (fun f => rfl) h]
  simp only [build_attack_chains, hk, ha]


lemma cexSetOrder_sound : SetOrderSound cexSetOrder := by
  intro l
  exact ⟨List.nodup_dedup l, fun x => List.mem_dedup⟩

lemma c9SetOrderAlt_eq (l : List String) :
    c9SetOrderAlt l = (match l.dedup with
      | a :: t => t ++ [a]
      | [] => []) := rfl

lemma c9SetOrderAlt_sound : SetOrderSound c9SetOrderAlt := by
  intro l
  have hperm : (c9SetOrderAlt l).Perm l.dedup := by
    rw [c9SetOrderAlt_eq]
    cases hd : l.dedup with
    | nil => exact List.Perm.nil
    | cons a t => exact List.perm_append_singleton a t
  refine ⟨hperm.symm.nodup (List.nodup_dedup l), fun x => ?_⟩
  rw [hperm.mem_iff, List.mem_dedup]

/-- C9 is refuted as stated: the variable chains are listed from Python
sets, whose iteration order varies with the interpreter's randomised string
hashing; with the same source hits, sink hits, file contents and parameters,
two sound iteration orders yield findings that differ byte-for-byte (in
`path.variable_chain`). -/
theorem findings_determinism_counterexample :
    SetOrderSound cexSetOrder ∧ SetOrderSound c9SetOrderAlt ∧
    build_findings (build_backward_flows cexSetOrder c9Fs c9Sinks c9Entries [] [] 1
        DEFAULT_KINDS) [] []
      ≠ build_findings (build_backward_flows c9SetOrderAlt c9Fs c9Sinks c9Entries [] [] 1
        DEFAULT_KINDS) [] [] :=
  ⟨cexSetOrder_sound, c9SetOrderAlt_sound, by decide⟩

/-- Claim C9 (amended): two runs over identical inputs — the same source
hits, sink hits, file contents, and parameters — produce identical findings
up to the listing order of each finding's `path.variable_chain` (which
follows the interpreter's set-iteration order): the findings with their
variable chains erased are byte-identical, in particular the identifiers,
ordering, severities, statuses and scores all agree, and the attack chains
are identical. -/
theorem findings_determinism_amended
    (σ1 σ2 : List String → List String) (h1 : SetOrderSound σ1) (h2 : SetOrderSound σ2)
    (fs : String → List String) (sinks entries : List Hit)
    (dIdx : List (String × FileLine)) (cIdx : List (String × LineRef))
    (depth : Nat) (kinds : List String) (fwd : List FwdFlow) (az : List LineRef) :
    ((build_findings (build_backward_flows σ1 fs sinks entries dIdx cIdx depth kinds)
        fwd az).map scrubFinding
      = (build_findings (build_backward_flows σ2 fs sinks entries dIdx cIdx depth kinds)
        fwd az).map scrubFinding)
    ∧ ((build_findings (build_backward_flows σ1 fs sinks entries dIdx cIdx depth kinds)
        fwd az).map fun f => (f.id, f.severity, f.status, f.evidence_score))
      = ((build_findings (build_backward_flows σ2 fs sinks entries dIdx cIdx depth kinds)
        fwd az).map fun f => (f.id, f.severity, f.status, f.evidence_score))
    ∧ build_attack_chains
        (build_findings (build_backward_flows σ1 fs sinks entries dIdx cIdx depth kinds)
          fwd az)
      = build_attack_chains
        (build_findings (build_backward_flows σ2 fs sinks entries dIdx cIdx depth kinds)
          fwd az) := by
  have hpar := build_backward_flows_parallel h1 h2 fs sinks entries dIdx cIdx depth kinds
  have hded := dedup_parallel fwd az hpar [] 1
  have hsort :
      (build_findings (build_backward_flows σ1 fs sinks entries dIdx cIdx depth kinds)
        fwd az).map scrubFinding
      = (build_findings (build_backward_flows σ2 fs sinks entries dIdx cIdx depth kinds)
        fwd az).map scrubFinding := by
    rw [build_findings, build_findings]
    rw [List.map_insertionSort findingKeyLe findingKeyLe scrubFinding _
        (fun a _ b _ => Iff.rfl),
      List.map_insertionSort findingKeyLe findingKeyLe scrubFinding _
        (fun a _ b _ => Iff.rfl)]
    rw [hded]
  refine ⟨hsort, ?_, build_attack_chains_scrub hsort⟩
  have hstep : ∀ l : List Finding,
      (l.map fun f => (f.id, f.severity, f.status, f.evidence_score))
        = ((l.map scrubFinding).map fun f => (f.id, f.severity, f.status,
            f.evidence_score)) := by
    intro l
    rw [List.map_map]
    congr 1
  rw [hstep (build_findings (build_backward_flows σ1 fs sinks entries dIdx cIdx depth
      kinds) fwd az),
    hstep (build_findings (build_backward_flows σ2 fs sinks entries dIdx cIdx depth
      kinds) fwd az),
    hsort]

/-- Witness for the amended C9 at the two concrete sound oracles of the
counterexample. -/
theorem findings_determinism_amended_witness :
    ((build_findings (build_backward_flows cexSetOrder c9Fs c9Sinks c9Entries [] [] 1
        DEFAULT_KINDS) [] []).map scrubFinding
      = (build_findings (build_backward_flows c9SetOrderAlt c9Fs c9Sinks c9Entries [] [] 1
        DEFAULT_KINDS) [] []).map scrubFinding)
    ∧ ((build_findings (build_backward_flows cexSetOrder c9Fs c9Sinks c9Entries [] [] 1
        DEFAULT_KINDS) [] []).map fun f => (f.id, f.severity, f.status, f.evidence_score))
      = ((build_findings (build_backward_flows c9SetOrderAlt c9Fs c9Sinks c9Entries [] [] 1
        DEFAULT_KINDS) [] []).map fun f => (f.id, f.severity, f.status, f.evidence_score))
    ∧ build_attack_chains
        (build_findings (build_backward_flows cexSetOrder c9Fs c9Sinks c9Entries [] [] 1
          DEFAULT_KINDS) [] [])
      = build_attack_chains
        (build_findings (build_backward_flows c9SetOrderAlt c9Fs c9Sinks c9Entries [] [] 1
          DEFAULT_KINDS) [] []) :=
  findings_determinism_amended cexSetOrder c9SetOrderAlt cexSetOrder_sound
    c9SetOrderAlt_sound c9Fs c9Sinks c9Entries [] [] 1 DEFAULT_KINDS [] []


/-- Witness for C2: in a concrete run with two same-file sources at
distances 4 and 1, the windowed filter is non-empty and the selected source
is the closest hit. -/
theorem backward_source_selection_witness :
    (c2WitFlow ∈ build_backward_flows cexSetOrder c2WitFs c2WitSinks c2WitEntries [] []
        3 DEFAULT_KINDS)
    ∧ (((c2WitEntries.filter fun e =>
          decide ((e.line - c2WitFlow.sink.line).natAbs ≤ max 80 (80 * 3)) &&
            (e.file == c2WitFlow.sink.file)) = [] → c2WitFlow.source = c2WitEntries.head?)
      ∧ ((c2WitEntries.filter fun e =>
          decide ((e.line - c2WitFlow.sink.line).natAbs ≤ max 80 (80 * 3)) &&
            (e.file == c2WitFlow.sink.file)) ≠ [] →
          ∃ m pre post, c2WitFlow.source = some m ∧
            (c2WitEntries.filter fun e =>
              decide ((e.line - c2WitFlow.sink.line).natAbs ≤ max 80 (80 * 3)) &&
                (e.file == c2WitFlow.sink.file)) = pre ++ m :: post ∧
            (∀ q ∈ pre,
              (m.line - c2WitFlow.sink.line).natAbs <
                (q.line - c2WitFlow.sink.line).natAbs) ∧
            ∀ q ∈ (c2WitEntries.filter fun e =>
                decide ((e.line - c2WitFlow.sink.line).natAbs ≤ max 80 (80 * 3)) &&
                  (e.file == c2WitFlow.sink.file)),
              (m.line - c2WitFlow.sink.line).natAbs ≤
                (q.line - c2WitFlow.sink.line).natAbs)) :=
  ⟨by decide,
   backward_source_selection cexSetOrder c2WitFs c2WitSinks c2WitEntries [] [] 3
     DEFAULT_KINDS c2WitFlow (by decide)⟩

/-- Witness for C5 on the first finding of the concrete two-file run. -/
theorem severity_normalization_spec_witness :
    (c5WitFinding ∈ build_findings cexFlows []
        (scan_authz_model cexFs ["w.py", "c.py"] none))
    ∧ ∃ flow ∈ cexFlows,
        c5WitFinding.evidence_score =
          (calc_evidence_score flow [] (scan_authz_model cexFs ["w.py", "c.py"] none)).1 ∧
        c5WitFinding.severity =
          normalize_severity flow.severity flow.kind c5WitFinding.evidence_score :=
  ⟨by decide,
   severity_normalization_spec.1 cexFlows []
     (scan_authz_model cexFs ["w.py", "c.py"] none) c5WitFinding (by decide)⟩

end TaintAudit
